import Mathlib

/-!
# mcproxy: the orchestrator of `src/proxy/proxy.cpp`

A shallow embedding of the class `proxy`: command line processing
(`prozess_commandline_args`), the creation of the proxy instances
(`start_proxy_instances`), the constructor with its asynchronous signal handler
(`proxy::proxy`, `start`, `signal_handler`) and the status text (`to_string`).

Conventions.
* A C string is a `String`; `argv` is a `List String` whose length is `arg_count`.
* A `throw "..."` of the source is the completion `throws "..."`; the state reached
  at the throw is kept next to it.
* `none` as the result of a function means that the source has no defined result
  there (a null pointer is dereferenced) or that the fuel of a loop ran out; the
  theorems show that neither happens where a result is claimed.
* Types, constants and functions declared in headers that are not part of
  `src/proxy/proxy.cpp` are parameters, or small models whose comment says so.
-/

namespace mcproxy

/-! ## Collaborators declared in other headers -/

/-- Log levels of `hamcast_logging.h` that `prozess_commandline_args` selects. -/
inductive hc_log_lvl
  | HC_LOG_ERROR_LVL
  | HC_LOG_DEBUG_LVL
  | HC_LOG_TRACE_LVL
  deriving DecidableEq, Repr

/-- Kinds of `config_msg` (`config_msg::ADD_UPSTREAM`, ...). -/
inductive config_instruction
  | ADD_DOWNSTREAM
  | DEL_DOWNSTREAM
  | ADD_UPSTREAM
  deriving DecidableEq, Repr

/-- A `config_msg(instruction, if_index)`. -/
structure config_msg where
  instruction : config_instruction
  if_index : Nat
  deriving DecidableEq, Repr

/-- Modelled from the spec: class `proxy_configuration` (its header and source are
not part of `src/proxy/proxy.cpp`). It supplies, once at startup, the selected
protocol (`get_group_mem_protocol`), the interface table (`get_interfaces`, a shared
handle) and the upstream to downstream map (`get_upstream_downstream_map`), given
here as the sequence of entries in iteration order. -/
structure proxy_configuration where
  m_group_mem_protocol : Nat
  m_interfaces : Nat
  m_upstream_downstream_map : List (Nat × List Nat)
  deriving DecidableEq, Repr

/-- Modelled from the spec: class `proxy_instance` (declared in
`include/proxy/proxy_instance.hpp`, not part of `src/proxy/proxy.cpp`): the four
constructor arguments and the messages handed to `add_msg`, oldest first. -/
structure proxy_instance where
  m_group_mem_protocol : Nat
  m_table : Int
  m_interfaces : Nat
  m_timing : Nat
  m_msgs : List config_msg
  deriving DecidableEq, Repr

/-- Modelled from the spec: `new proxy_instance(protocol, table, interfaces, timing)`;
a fresh instance has received no message. -/
def new_proxy_instance (protocol : Nat) (table : Int) (interfaces : Nat) (timing : Nat) :
    proxy_instance :=
  { m_group_mem_protocol := protocol, m_table := table, m_interfaces := interfaces,
    m_timing := timing, m_msgs := [] }

/-- Modelled from the spec: `proxy_instance::add_msg` enqueues the message behind the
messages posted before. -/
def proxy_instance.add_msg (pr_i : proxy_instance) (m : config_msg) : proxy_instance :=
  { pr_i with m_msgs := pr_i.m_msgs ++ [m] }

/-! ## The orchestrator state -/

/-- The data members of class `proxy`, the static member `m_running` (line 38) and the
default log level of the logging facility, which `hc_set_default_log_fun` sets
(`none`: not set yet). The `int` member `m_verbose_lvl` is only ever incremented once
per option character of `argv`, whose size the operating system bounds far below
2^31, so it is an integer without wrap-around here. -/
structure proxy where
  m_running : Bool
  m_verbose_lvl : Int
  m_print_proxy_status : Bool
  m_reset_rp_filter : Bool
  m_config_path : String
  m_proxy_configuration : Option proxy_configuration
  m_timing : Nat
  m_proxy_instances : List (Int × proxy_instance)
  default_log_lvl : Option hc_log_lvl
  deriving DecidableEq, Repr

/-- Line 38 and the member initialisers of lines 41 to 46. The macro
`PROXY_CONFIGURATION_DEFAULT_CONIG_PATH` and the handle of the fresh `timing`
object are parameters. -/
def proxy_initial (default_config_path : String) (timing : Nat) : proxy :=
  { m_running := false
    m_verbose_lvl := 0
    m_print_proxy_status := false
    m_reset_rp_filter := false
    m_config_path := default_config_path
    m_proxy_configuration := none
    m_timing := timing
    m_proxy_instances := []
    default_log_lvl := none }

/-- How a function body ends: by returning or by a `throw` of a message. -/
inductive completion
  | returns
  | throws (msg : String)
  deriving DecidableEq, Repr

/-! ## `getopt` of the C library -/

/-- The option string of line 128. -/
def optstring : List Char := "hrdsvcf:".toList

/-- The scanner state of `getopt` between two calls: `optind`, the rest of the option
cluster being scanned (`nextchar`, empty when the next element of `argv` is due),
`optarg`, and the number of non-option elements passed over so far. The GNU scanner
moves those elements behind the options it has scanned; as the caller never reads
`argv` below `optind`, only their number is kept. -/
structure getopt_state where
  optind : Nat
  nextchar : List Char
  nonopts : Nat
  optarg : Option String
  deriving DecidableEq, Repr

/-- The scanner state before the first call: `optind` is 1. -/
def getopt_initial : getopt_state :=
  { optind := 1, nextchar := [], nonopts := 0, optarg := none }

/-- An element of `argv` that is not an option element: it does not start with a
dash, or it is the single dash. -/
def NONOPTION_P (a : String) : Bool :=
  match a.toList with
  | '-' :: _ :: _ => false
  | _ => true

/-- Number of non-option elements at the head of the unscanned part of `argv`. -/
def skip_nonoptions : List String → Nat
  | [] => 0
  | a :: rest => if NONOPTION_P a then skip_nonoptions rest + 1 else 0

/-- Number of elements of `argv` the scanner passes over before it looks at the next
element: none when the scan has to stop at the first non-option element, the
non-option elements at `optind` otherwise. -/
def skip_count (posixly_correct : Bool) (args : List String) (optind : Nat) : Nat :=
  if posixly_correct then 0 else skip_nonoptions (args.drop optind)

/-- The C idiom `strchr(optstring, c)` followed by the test for a colon behind the
character found: `none` when `c` is no option character, `some true` when the
option takes an argument. -/
def optstring_lookup : List Char → Char → Option Bool
  | [], _ => none
  | o :: rest, c => if o = c then some (rest.head? = some ':') else optstring_lookup rest c

/-- One short option character `c` of the cluster, `cs` being the rest of the cluster:
the value returned and the new scanner state. -/
def getopt_short (args : List String) (opts : List Char) (c : Char) (cs : List Char)
    (g : getopt_state) : Option Char × getopt_state :=
  let g1 : getopt_state :=
    if cs = [] then { g with optind := g.optind + 1, nextchar := [] }
    else { g with nextchar := cs }
  match (if c = ':' ∨ c = ';' then none else optstring_lookup opts c) with
  | none => (some '?', g1)
  | some false => (some c, g1)
  | some true =>
    if cs ≠ [] then
      (some c, { g1 with optarg := some (String.mk cs), optind := g1.optind + 1, nextchar := [] })
    else
      match args[g1.optind]? with
      | none => (some '?', { g1 with nextchar := [] })
      | some a => (some c, { g1 with optarg := some a, optind := g1.optind + 1, nextchar := [] })

/-- One call `getopt(argc, argv, optstring)` for an option string of plain option
characters and option characters with a required argument, as documented for the C
library: `none` is the return value -1. With `posixly_correct` the scan stops at the
first non-option element, otherwise (the GNU default) non-option elements are passed
over and end up behind the options. -/
def getopt (posixly_correct : Bool) (args : List String) (opts : List Char)
    (g0 : getopt_state) : Option Char × getopt_state :=
  if args.length < 1 then (none, g0)
  else
    let g : getopt_state := { g0 with optarg := none }
    match g.nextchar with
    | c :: cs => getopt_short args opts c cs g
    | [] =>
      let n := skip_count posixly_correct args g.optind
      let g : getopt_state := { g with optind := g.optind + n, nonopts := g.nonopts + n }
      match args[g.optind]? with
      | none => (none, { g with optind := g.optind - g.nonopts, nonopts := 0 })
      | some a =>
        if a = "--" then (none, { g with optind := g.optind + 1 - g.nonopts, nonopts := 0 })
        else
          match a.toList with
          | '-' :: c :: cs => getopt_short args opts c cs g
          | _ => (none, g)

/-! ## `proxy::help_output` and `proxy::prozess_commandline_args` -/

/-- The lines `help_output` writes to the standard output (release build). -/
def help_output : List String :=
  [ "Mcproxy version 0.1.5"
  , " - Compiled in release mode."
  , "Project page: http://mcproxy.realmv6.org/"
  , ""
  , "Usage:"
  , "  mcproxy [-h]"
  , "  mcproxy [-c]"
  , "  mcproxy [-r] [-d] [-s] [-v [-v]] [-f <config file>]"
  , ""
  , "\t-h"
  , "\t\tDisplay this help screen."
  , "\t-r"
  , "\t\tReset the reverse path filter flag, to accept data from"
  , "\t\tforeign subnets."
  , "\t-d"
  , "\t\tRun in debug mode if possible. Output all log messages"
  , "\t\tin thread[X] files."
  , "\t-s"
  , "\t\tPrint proxy status information repeatedly."
  , "\t-v"
  , "\t\tBe verbose. Give twice to see even more messages"
  , "\t-f"
  , "\t\tTo specify the configuration file."
  , "\t-c"
  , "\t\tCheck the currently available kernel features." ]

/-- The two local flags of `prozess_commandline_args` (lines 122 and 123). -/
structure cmdline_locals where
  is_logging : Bool
  is_check_kernel : Bool
  deriving DecidableEq, Repr

/-- An upper bound on the number of `getopt` calls that return an option: every such
call consumes a character of `argv`. -/
def getopt_fuel (args : List String) : Nat :=
  (args.map (fun a => a.length + 1)).sum + 1

/-- The loop of lines 128 to 162. `help_output()` only writes to the standard output,
which is not part of the state. `none`: the fuel ran out, or `optarg` is null at
`std::string(optarg)`. -/
def getopt_loop (posixly_correct : Bool) (args : List String) :
    Nat → proxy → cmdline_locals → getopt_state →
      Option (completion × proxy × cmdline_locals × getopt_state)
  | 0, _, _, _ => none
  | fuel + 1, p, l, g =>
    match getopt posixly_correct args optstring g with
    | (none, g1) => some (.returns, p, l, g1)
    | (some c, g1) =>
      if c = 'h' then some (.throws "", p, l, g1)
      else if c = 'c' then
        getopt_loop posixly_correct args fuel p { l with is_check_kernel := true } g1
      else if c = 'r' then
        getopt_loop posixly_correct args fuel { p with m_reset_rp_filter := true } l g1
      else if c = 'd' then
        getopt_loop posixly_correct args fuel p { l with is_logging := true } g1
      else if c = 's' then
        getopt_loop posixly_correct args fuel { p with m_print_proxy_status := true } l g1
      else if c = 'v' then
        getopt_loop posixly_correct args fuel { p with m_verbose_lvl := p.m_verbose_lvl + 1 } l g1
      else if c = 'f' then
        match g1.optarg with
        | none => none
        | some a => getopt_loop posixly_correct args fuel { p with m_config_path := a } l g1
      else
        some (.throws "Unknown argument! See help (-h) for more information.", p, l, g1)

/-- Lines 170 to 181: the choice of the default log level. -/
def select_log_lvl (is_logging : Bool) (p : proxy) : completion × proxy :=
  if ¬ is_logging then
    (.returns, { p with default_log_lvl := some .HC_LOG_ERROR_LVL })
  else if p.m_verbose_lvl = 0 then
    (.returns, { p with default_log_lvl := some .HC_LOG_DEBUG_LVL })
  else if p.m_verbose_lvl ≥ 1 then
    (.returns, { p with default_log_lvl := some .HC_LOG_TRACE_LVL })
  else
    (.throws "Unknown verbose level", p)

/-- Lines 125 to 163: with `arg_count == 1` nothing is scanned, otherwise the loop
runs from the initial scanner state. -/
def scan_commandline (posixly_correct : Bool) (args : List String) (p : proxy) :
    Option (completion × proxy × cmdline_locals × getopt_state) :=
  if args.length = 1 then
    some (completion.returns, p, cmdline_locals.mk false false, getopt_initial)
  else
    getopt_loop posixly_correct args (getopt_fuel args) p (cmdline_locals.mk false false)
      getopt_initial

/-- Lines 165 to 187, entered when the scan has not thrown: the test for a left over
argument, the choice of the log level and the kernel check, which only reports to
the standard output. -/
def after_scan (arg_count optind : Nat) (l : cmdline_locals) (p1 : proxy) :
    completion × proxy :=
  if optind < arg_count then (.throws "Unknown option argument", p1)
  else
    match select_log_lvl l.is_logging p1 with
    | (.throws m, p2) => (.throws m, p2)
    | (.returns, p2) =>
      if l.is_check_kernel then (.throws "", p2) else (.returns, p2)

/-- The method `proxy::prozess_commandline_args` (lines 118 to 188). -/
def prozess_commandline_args (posixly_correct : Bool) (args : List String) (p : proxy) :
    Option (completion × proxy) :=
  let arg_count := args.length
  match scan_commandline posixly_correct args p with
  | none => none
  | some (.throws m, p1, _, _) => some (.throws m, p1)
  | some (.returns, p1, l, g) => some (after_scan arg_count g.optind l p1)

/-- The values successive `getopt` calls return, each with the `optarg` it leaves,
up to the call that returns -1, and the scanner state after that call. `none`: the
fuel ran out before -1 was returned. -/
def getopt_trace (posixly_correct : Bool) (args : List String) :
    Nat → getopt_state → Option (List (Char × Option String) × getopt_state)
  | 0, _ => none
  | fuel + 1, g =>
    match getopt posixly_correct args optstring g with
    | (none, g1) => some ([], g1)
    | (some c, g1) =>
      match getopt_trace posixly_correct args fuel g1 with
      | none => none
      | some (ys, gfin) => some ((c, g1.optarg) :: ys, gfin)

/-! ## `proxy::start_proxy_instances` -/

/-- The value of an `int` initialised from the map key (line 196): the key modulo
2^32, read as a two's complement number. -/
def to_int (k : Nat) : Int :=
  if k % 2 ^ 32 < 2 ^ 31 then ((k % 2 ^ 32 : Nat) : Int) else ((k % 2 ^ 32 : Nat) : Int) - 2 ^ 32

/-- The value of an `unsigned int` initialised from the map key (line 200). -/
def to_unsigned (k : Nat) : Nat := k % 2 ^ 32

/-- Lookup of `std::map<int, T>`. -/
def std_map_find {T : Type} (m : List (Int × T)) (k : Int) : Option T :=
  match m with
  | [] => none
  | e :: rest => if e.1 = k then some e.2 else std_map_find rest k

/-- The call `std::map<int, T>::insert`: an element whose key is already present is
not inserted. The map is kept as the list of its elements in insertion order; the
orchestrator never iterates over it. -/
def std_map_insert {T : Type} (m : List (Int × T)) (k : Int) (v : T) : List (Int × T) :=
  match std_map_find m k with
  | some _ => m
  | none => m ++ [(k, v)]

/-- The body of the loop of lines 195 to 211 for the entry `e` of the map `db`. -/
def start_proxy_instance (cfg : proxy_configuration) (db : List (Nat × List Nat))
    (p : proxy) (e : Nat × List Nat) : proxy :=
  let table : Int := if db.length ≤ 1 then 0 else to_int e.1
  let upstream : Nat := to_unsigned e.1
  let downstreams := e.2
  let pr_i := new_proxy_instance cfg.m_group_mem_protocol table cfg.m_interfaces p.m_timing
  let pr_i := pr_i.add_msg (config_msg.mk .ADD_UPSTREAM upstream)
  let pr_i := downstreams.foldl
    (fun q f => q.add_msg (config_msg.mk .ADD_DOWNSTREAM f)) pr_i
  { p with m_proxy_instances := std_map_insert p.m_proxy_instances table pr_i }

/-- The method `proxy::start_proxy_instances` (lines 190 to 212). `none`: the
configuration pointer is null at line 194. -/
def start_proxy_instances (p : proxy) : Option proxy :=
  match p.m_proxy_configuration with
  | none => none
  | some cfg =>
    let db := cfg.m_upstream_downstream_map
    some (db.foldl (start_proxy_instance cfg db) p)

/-! ## `proxy::signal_handler`, `proxy::start` and the constructor -/

/-- The handler `proxy::signal_handler` (lines 331 to 334). -/
def signal_handler (p : proxy) : proxy := { p with m_running := false }

/-- What the constructor takes from its surroundings: the argument vector, the
effective user id, the scanning mode of `getopt`, the value of the macro
`PROXY_CONFIGURATION_DEFAULT_CONIG_PATH`, the handle of the `timing` object, and
the outcome of `new proxy_configuration(path, reset_rp_filter)`. -/
structure environment where
  args : List String
  euid : Nat
  posixly_correct : Bool
  default_config_path : String
  timing : Nat
  load_configuration : String → Bool → Except String proxy_configuration

/-- Control points of the constructor `proxy::proxy` (lines 40 to 67). -/
inductive control
  | entry
  | handlers_installed
  | args_processed
  | root_checked
  | configured
  | instances_started
  | in_start_loop
  | constructed
  | thrown (msg : String)
  deriving DecidableEq, Repr

/-- The orchestrator state together with the control point of the constructor. -/
structure world where
  ctl : control
  p : proxy
  deriving DecidableEq, Repr

/-- The process when the constructor is entered. -/
def world_initial (env : environment) : world :=
  { ctl := .entry, p := proxy_initial env.default_config_path env.timing }

/-- One statement of the constructor (for `start`, lines 214 to 221: the assignment of
line 218, then one test of the loop condition per step). `none`: the constructor has
ended, or the statement has no defined result. The statements before `start` neither
read nor write `m_running`, the only variable the signal handler touches, so a signal
delivered inside one of them has the effect of a signal delivered before or after
it. -/
def constructor_step (env : environment) (w : world) : Option world :=
  match w.ctl with
  -- lines 50 and 51: the two calls of `signal`
  | .entry => some { w with ctl := .handlers_installed }
  -- line 53
  | .handlers_installed =>
    match prozess_commandline_args env.posixly_correct env.args w.p with
    | none => none
    | some (.returns, p1) => some { ctl := .args_processed, p := p1 }
    | some (.throws m, p1) => some { ctl := .thrown m, p := p1 }
  -- lines 57 to 60
  | .args_processed =>
    if env.euid ≠ 0 then
      some { w with ctl := .thrown "The mcproxy has to be started with root privileges!" }
    else some { w with ctl := .root_checked }
  -- line 62
  | .root_checked =>
    match env.load_configuration w.p.m_config_path w.p.m_reset_rp_filter with
    | .error m => some { w with ctl := .thrown m }
    | .ok cfg => some { ctl := .configured, p := { w.p with m_proxy_configuration := some cfg } }
  -- line 64
  | .configured =>
    match start_proxy_instances w.p with
    | none => none
    | some p1 => some { ctl := .instances_started, p := p1 }
  -- line 66, `start`: line 218
  | .instances_started => some { ctl := .in_start_loop, p := { w.p with m_running := true } }
  -- `start`: lines 219 to 221, one test of the condition, followed by `sleep(1)` or the return
  | .in_start_loop =>
    if w.p.m_running then some w else some { w with ctl := .constructed }
  | .constructed => none
  | .thrown _ => none

/-- What can happen next: the constructor executes its next statement, or a signal
(SIGINT or SIGTERM) is delivered. -/
inductive event
  | step
  | signal
  deriving DecidableEq, Repr

/-- The effect of an event. A signal runs `signal_handler` once the handlers are
installed (lines 50 and 51). `none`: the event cannot happen in this state. -/
def fire (env : environment) (e : event) (w : world) : Option world :=
  match e with
  | .step => constructor_step env w
  | .signal =>
    match w.ctl with
    | .entry => none
    | _ => some { w with p := signal_handler w.p }

/-- The state after a sequence of events; an event that cannot happen is skipped. -/
def run (env : environment) : List event → world → world
  | [], w => w
  | e :: es, w => run env es ((fire env e w).getD w)

/-! ## `proxy::to_string` -/

/-- The text `operator<<` writes for a `bool`. -/
def print_bool (b : Bool) : String := if b then "1" else "0"

/-- The method `proxy::to_string` (lines 336 to 351) in state passing style: the text
and the state after the call. The status text of the configuration
(`proxy_configuration::to_string`) is a parameter. `none`: the configuration pointer
is null at line 349. -/
def to_string (configuration_to_string : proxy_configuration → String) (p : proxy) :
    Option (String × proxy) :=
  match p.m_proxy_configuration with
  | none => none
  | some cfg =>
    let s := ""
    let s := s ++ "##-- multicst proxy status --##" ++ "\n"
    let s := s ++ "is running: " ++ print_bool p.m_running ++ "\n"
    let s := s ++ "verbose level: " ++ toString p.m_verbose_lvl ++ "\n"
    let s := s ++ "print proxy_status information: " ++ print_bool p.m_print_proxy_status ++ "\n"
    let s := s ++ "reset all reverse path filter: " ++ print_bool p.m_reset_rp_filter ++ "\n"
    let s := s ++ "config path: " ++ p.m_config_path ++ "\n"
    let s := s ++ "-- proxy configuration --" ++ "\n"
    let s := s ++ configuration_to_string cfg ++ "\n"
    some (s, p)

/-! ## Notions used in the statements and proofs

### The instance table -/

/-- The routing table id line 196 to 199 choose for the entry `e` of the map `db`. -/
def table_of (db : List (Nat × List Nat)) (e : Nat × List Nat) : Int :=
  if db.length ≤ 1 then 0 else to_int e.1

/-- The instance the loop body hands to `insert` for the entry `e`. -/
def instance_of (cfg : proxy_configuration) (db : List (Nat × List Nat)) (timing : Nat)
    (e : Nat × List Nat) : proxy_instance :=
  { m_group_mem_protocol := cfg.m_group_mem_protocol
    m_table := table_of db e
    m_interfaces := cfg.m_interfaces
    m_timing := timing
    m_msgs := config_msg.mk .ADD_UPSTREAM (to_unsigned e.1) ::
      e.2.map (config_msg.mk .ADD_DOWNSTREAM) }

/-! ### The constructor -/

/-- The messages posted so far: the messages handed to the instances of the table. -/
def posted_msgs : List (Int × proxy_instance) → List config_msg
  | [] => []
  | e :: rest => e.2.m_msgs ++ posted_msgs rest

/-- The members `prozess_commandline_args` and the other statements before line 62
leave alone: the running flag, the configuration, the timing handle and the instance
table of `q` are those of `p`. -/
def same_core (p q : proxy) : Prop :=
  q.m_running = p.m_running ∧ q.m_proxy_configuration = p.m_proxy_configuration ∧
    q.m_timing = p.m_timing ∧ q.m_proxy_instances = p.m_proxy_instances

/-- An environment for the examples: no option, root, a configuration of two entries. -/
def example_environment : environment :=
  { args := ["mcproxy"]
    euid := 0
    posixly_correct := false
    default_config_path := "mcproxy.conf"
    timing := 0
    load_configuration := fun _ _ => .ok (proxy_configuration.mk 3 7 [(1, [2, 3]), (4, [5])]) }

/-- The example environment for a user other than root. -/
def example_environment_user : environment :=
  { example_environment with euid := 1000 }

/-- The states the constructor runs through when the arguments are accepted with the
members `p1` and the user is not root, by the number of statements executed. -/
def root_check_stage (env : environment) (p1 : proxy) : Nat → world
  | 0 => { ctl := .entry, p := proxy_initial env.default_config_path env.timing }
  | 1 => { ctl := .handlers_installed, p := proxy_initial env.default_config_path env.timing }
  | 2 => { ctl := .args_processed, p := p1 }
  | _ + 3 => { ctl := .thrown "The mcproxy has to be started with root privileges!", p := p1 }

/-! ### The scanner and the loop over its values -/

/-- Characters of `argv` from element `i` on, counting one more for each element. -/
def argv_weight (args : List String) (i : Nat) : Nat :=
  ((args.drop i).map (fun a => a.length + 1)).sum

/-- What is left to scan in the scanner state `g`. -/
def getopt_measure (args : List String) (g : getopt_state) : Nat :=
  g.nextchar.length + argv_weight args (if g.nextchar = [] then g.optind else g.optind + 1)

/-- The values `getopt` can return for the option string of line 128. -/
def option_value (c : Char) : Prop :=
  c = '?' ∨ c = 'h' ∨ c = 'r' ∨ c = 'd' ∨ c = 's' ∨ c = 'v' ∨ c = 'c' ∨ c = 'f'

/-- What holds of the scanner state between two calls: `optind` does not point behind
the end of `argv`, and it points at the element whose cluster is being scanned. -/
def getopt_inv (args : List String) (g : getopt_state) : Prop :=
  g.optind ≤ args.length ∧ (g.nextchar ≠ [] → g.optind < args.length)

/-- The loop of lines 128 to 162 run on the values `getopt` yields. -/
def loop_on : List (Char × Option String) → proxy → cmdline_locals →
    completion × proxy × cmdline_locals
  | [], p, l => (.returns, p, l)
  | (c, oa) :: ys, p, l =>
    if c = 'h' then (.throws "", p, l)
    else if c = 'c' then loop_on ys p { l with is_check_kernel := true }
    else if c = 'r' then loop_on ys { p with m_reset_rp_filter := true } l
    else if c = 'd' then loop_on ys p { l with is_logging := true }
    else if c = 's' then loop_on ys { p with m_print_proxy_status := true } l
    else if c = 'v' then loop_on ys { p with m_verbose_lvl := p.m_verbose_lvl + 1 } l
    else if c = 'f' then loop_on ys { p with m_config_path := oa.getD p.m_config_path } l
    else (.throws "Unknown argument! See help (-h) for more information.", p, l)

/-- The first of the values `getopt` yields that is `h` or the value for an unknown
option, if there is one. -/
def first_stop (ys : List (Char × Option String)) : Option Char :=
  (ys.map Prod.fst).find? (fun c => c = 'h' || c = '?')

/-! ### Argument vectors made of the options of the usage line -/

/-- The options of the third usage line of the help text. -/
inductive cli_option
  | r
  | d
  | s
  | v
  | f (path : String)
  deriving DecidableEq, Repr

/-- The elements of `argv` an option is given by. -/
def cli_option.render : cli_option → List String
  | .r => ["-r"]
  | .d => ["-d"]
  | .s => ["-s"]
  | .v => ["-v"]
  | .f path => ["-f", path]

/-- The elements of `argv` behind the program name for a sequence of options. -/
def render_options : List cli_option → List String
  | [] => []
  | o :: rest => o.render ++ render_options rest

/-- The value and the `optarg` that `getopt` yields for an option. -/
def cli_option.yield : cli_option → Char × Option String
  | .r => ('r', none)
  | .d => ('d', none)
  | .s => ('s', none)
  | .v => ('v', none)
  | .f path => ('f', some path)

/-- The argument of the last `-f` of a sequence of options, `dflt` when there is none. -/
def last_config_path (dflt : String) : List cli_option → String
  | [] => dflt
  | .f path :: rest => last_config_path path rest
  | _ :: rest => last_config_path dflt rest

/-- The `optarg` of the last `f` among the values `getopt` yields, `dflt` when there is
none. -/
def last_optarg (dflt : String) : List (Char × Option String) → String
  | [] => dflt
  | (c, oa) :: ys => if c = 'f' then last_optarg (oa.getD dflt) ys else last_optarg dflt ys

/-! # Theorems -/

/-! ## The instance table after `start_proxy_instances` -/

theorem add_downstreams_msgs (ds : List Nat) (q : proxy_instance) :
    ds.foldl (fun q f => q.add_msg (config_msg.mk .ADD_DOWNSTREAM f)) q =
      { q with m_msgs := q.m_msgs ++ ds.map (config_msg.mk .ADD_DOWNSTREAM) } := by
  induction ds generalizing q with
  | nil => simp
  | cons d ds ih =>
    rw [List.foldl_cons, ih]
    simp [proxy_instance.add_msg]

theorem start_proxy_instance_eq (cfg : proxy_configuration) (db : List (Nat × List Nat))
    (p : proxy) (e : Nat × List Nat) :
    start_proxy_instance cfg db p e =
      { p with m_proxy_instances :=
          std_map_insert p.m_proxy_instances (table_of db e) (instance_of cfg db p.m_timing e) } := by
  simp only [start_proxy_instance]
  rw [add_downstreams_msgs]
  simp [table_of, instance_of, new_proxy_instance, proxy_instance.add_msg]

theorem std_map_find_none {T : Type} (m : List (Int × T)) (k : Int) :
    std_map_find m k = none ↔ k ∉ m.map Prod.fst := by
  induction m with
  | nil => simp [std_map_find]
  | cons e rest ih =>
    by_cases h : e.1 = k
    · simp [std_map_find, h]
    · simp only [std_map_find, h, if_false, ih, List.map_cons, List.mem_cons, not_or]
      constructor
      · intro h2; exact ⟨fun h3 => h h3.symm, h2⟩
      · intro h2; exact h2.2

theorem std_map_find_append_of_none {T : Type} (m m2 : List (Int × T)) (k : Int)
    (h : std_map_find m k = none) : std_map_find (m ++ m2) k = std_map_find m2 k := by
  induction m with
  | nil => rfl
  | cons e rest ih =>
    by_cases h1 : e.1 = k
    · simp [std_map_find, h1] at h
    · simp only [std_map_find, h1, if_false] at h
      simp [std_map_find, h1, ih h]

theorem std_map_find_map_of_mem {A T : Type} (l : List A) (key : A → Int) (val : A → T)
    (hnd : (l.map key).Nodup) (a : A) (ha : a ∈ l) :
    std_map_find (l.map (fun x => (key x, val x))) (key a) = some (val a) := by
  induction l with
  | nil => simp at ha
  | cons x rest ih =>
    simp only [List.map_cons, List.nodup_cons] at hnd
    by_cases hx : key x = key a
    · rcases List.mem_cons.mp ha with h | h
      · subst h; simp [std_map_find]
      · exact absurd (hx ▸ List.mem_map_of_mem key h) hnd.1
    · rcases List.mem_cons.mp ha with h | h
      · subst h; exact absurd rfl hx
      · simp [std_map_find, hx, ih hnd.2 h]

theorem foldl_start_proxy_instance (cfg : proxy_configuration) (db l : List (Nat × List Nat))
    (p : proxy) (hnd : (l.map (table_of db)).Nodup)
    (hfresh : ∀ e ∈ l, table_of db e ∉ p.m_proxy_instances.map Prod.fst) :
    l.foldl (start_proxy_instance cfg db) p =
      { p with m_proxy_instances :=
          p.m_proxy_instances ++ l.map (fun e => (table_of db e, instance_of cfg db p.m_timing e)) } := by
  induction l generalizing p with
  | nil => simp
  | cons e rest ih =>
    simp only [List.map_cons, List.nodup_cons] at hnd
    have h1 : std_map_find p.m_proxy_instances (table_of db e) = none :=
      (std_map_find_none _ _).2 (hfresh e (List.mem_cons_self _ _))
    rw [List.foldl_cons, start_proxy_instance_eq, ih _ hnd.2]
    · simp [std_map_insert, h1]
    · intro x hx
      simp only [std_map_insert, h1, List.map_append, List.map_cons, List.map_nil, List.mem_append,
        List.mem_singleton, not_or]
      refine ⟨hfresh x (List.mem_cons_of_mem _ hx), ?_⟩
      intro heq
      exact hnd.1 (heq ▸ List.mem_map_of_mem _ hx)

theorem to_unsigned_of_lt {k : Nat} (h : k < 2 ^ 32) : to_unsigned k = k :=
  Nat.mod_eq_of_lt h

theorem to_int_injective {a b : Nat} (ha : a < 2 ^ 32) (hb : b < 2 ^ 32)
    (h : to_int a = to_int b) : a = b := by
  have h1 : a % 2 ^ 32 = a := Nat.mod_eq_of_lt ha
  have h2 : b % 2 ^ 32 = b := Nat.mod_eq_of_lt hb
  unfold to_int at h
  rw [h1, h2] at h
  split_ifs at h <;> omega

theorem table_of_nodup (db : List (Nat × List Nat)) (hkeys : (db.map Prod.fst).Nodup)
    (hrange : ∀ e ∈ db, e.1 < 2 ^ 32) : (db.map (table_of db)).Nodup := by
  by_cases hlen : db.length ≤ 1
  · match db, hlen with
    | [], _ => simp
    | [e], _ => simp
    | _ :: _ :: _, h => simp at h
  · have h1 : db.map (table_of db) = (db.map Prod.fst).map to_int := by
      rw [List.map_map]
      apply List.map_congr_left
      intro e _
      simp [table_of, hlen]
    rw [h1]
    apply List.Nodup.map_on _ hkeys
    intro a ha b hb hab
    obtain ⟨ea, hea, rfl⟩ := List.mem_map.mp ha
    obtain ⟨eb, heb, rfl⟩ := List.mem_map.mp hb
    exact to_int_injective (hrange ea hea) (hrange eb heb) hab

theorem start_proxy_instances_eq (p : proxy) (cfg : proxy_configuration)
    (hcfg : p.m_proxy_configuration = some cfg) (hempty : p.m_proxy_instances = [])
    (hkeys : (cfg.m_upstream_downstream_map.map Prod.fst).Nodup)
    (hrange : ∀ e ∈ cfg.m_upstream_downstream_map, e.1 < 2 ^ 32) :
    start_proxy_instances p =
      some
        { p with
          m_proxy_instances :=
            cfg.m_upstream_downstream_map.map (fun e =>
              (table_of cfg.m_upstream_downstream_map e,
                instance_of cfg cfg.m_upstream_downstream_map p.m_timing e)) } := by
  unfold start_proxy_instances
  rw [hcfg]
  simp only
  rw [foldl_start_proxy_instance cfg _ _ p (table_of_nodup _ hkeys hrange)
    (by intro e _; simp [hempty])]
  rw [hempty, List.nil_append, hcfg]

theorem instance_of_msgs (cfg : proxy_configuration) (db : List (Nat × List Nat)) (timing : Nat)
    (e : Nat × List Nat) (he : e.1 < 2 ^ 32) :
    (instance_of cfg db timing e).m_msgs =
      config_msg.mk .ADD_UPSTREAM e.1 :: e.2.map (config_msg.mk .ADD_DOWNSTREAM) := by
  simp [instance_of, to_unsigned_of_lt he]

theorem to_int_eq {k : Nat} (h : k < 2 ^ 32) :
    to_int k = if k < 2 ^ 31 then (k : Int) else (k : Int) - 2 ^ 32 := by
  unfold to_int
  rw [Nat.mod_eq_of_lt h]

/-- C1, as claimed, fails: for the map with the entries `(1, [2])` and
`(2147483648, [3])` the instance of the second entry is stored under the table id
-2147483648, the value of the `int` of line 196, and not under its upstream key; the
keys of the instance table are not the keys of the map. -/
theorem start_proxy_instances_table_key_wraps :
    (start_proxy_instances
        { proxy_initial "mcproxy.conf" 0 with
          m_proxy_configuration :=
            some (proxy_configuration.mk 3 7 [(1, [2]), (2147483648, [3])]) }).map
        (fun p1 => p1.m_proxy_instances) =
      some
        [ (1, proxy_instance.mk 3 1 7 0
            [ config_msg.mk .ADD_UPSTREAM 1, config_msg.mk .ADD_DOWNSTREAM 2 ]),
          (-2147483648, proxy_instance.mk 3 (-2147483648) 7 0
            [ config_msg.mk .ADD_UPSTREAM 2147483648, config_msg.mk .ADD_DOWNSTREAM 3 ]) ] ∧
      ((start_proxy_instances
        { proxy_initial "mcproxy.conf" 0 with
          m_proxy_configuration :=
            some (proxy_configuration.mk 3 7 [(1, [2]), (2147483648, [3])]) }).bind
        (fun p1 => std_map_find p1.m_proxy_instances 2147483648)) = none := by
  refine ⟨by decide, by decide⟩

/-- C1, amended: for a configuration whose upstream keys are distinct values of
`unsigned int`, `start_proxy_instances`, run on the empty instance table the
constructor provides, leaves exactly one instance per map entry: none for the empty
map, a single instance under table id 0 for a map of one entry, and for two or more
entries each instance under the table id its upstream key has as an `int`, that is
the key itself when it is below 2^31 and the key minus 2^32 otherwise, the keys of the
instance table being these ids; when all keys are below 2^31 the keys of the instance
table are the keys of the map. -/
theorem start_proxy_instances_table (p : proxy) (cfg : proxy_configuration)
    (hcfg : p.m_proxy_configuration = some cfg) (hempty : p.m_proxy_instances = [])
    (hkeys : (cfg.m_upstream_downstream_map.map Prod.fst).Nodup)
    (hrange : ∀ e ∈ cfg.m_upstream_downstream_map, e.1 < 2 ^ 32) :
    ∃ p1, start_proxy_instances p = some p1 ∧
      p1.m_proxy_instances.length = cfg.m_upstream_downstream_map.length ∧
      (p1.m_proxy_instances.map Prod.fst).Nodup ∧
      (cfg.m_upstream_downstream_map = [] → p1.m_proxy_instances = []) ∧
      (∀ e, cfg.m_upstream_downstream_map = [e] →
        ∃ i, p1.m_proxy_instances = [(0, i)] ∧ i.m_table = 0 ∧
          i.m_msgs.head? = some (config_msg.mk .ADD_UPSTREAM e.1)) ∧
      (2 ≤ cfg.m_upstream_downstream_map.length →
        p1.m_proxy_instances.map Prod.fst =
            cfg.m_upstream_downstream_map.map
              (fun e => if e.1 < 2 ^ 31 then (e.1 : Int) else (e.1 : Int) - 2 ^ 32) ∧
          (∀ e ∈ cfg.m_upstream_downstream_map, ∃ i,
            std_map_find p1.m_proxy_instances
                (if e.1 < 2 ^ 31 then (e.1 : Int) else (e.1 : Int) - 2 ^ 32) = some i ∧
              i.m_table = (if e.1 < 2 ^ 31 then (e.1 : Int) else (e.1 : Int) - 2 ^ 32) ∧
              i.m_msgs.head? = some (config_msg.mk .ADD_UPSTREAM e.1)) ∧
          ((∀ e ∈ cfg.m_upstream_downstream_map, e.1 < 2 ^ 31) →
            p1.m_proxy_instances.map Prod.fst =
              cfg.m_upstream_downstream_map.map (fun e => (e.1 : Int)))) := by
  have hnd := table_of_nodup _ hkeys hrange
  refine ⟨_, start_proxy_instances_eq p cfg hcfg hempty hkeys hrange, ?_, ?_, ?_, ?_, ?_⟩
  · simp
  · simpa [List.map_map, Function.comp_def] using hnd
  · intro h
    simp [h]
  · intro e h
    refine ⟨instance_of cfg [e] p.m_timing e, ?_, ?_, ?_⟩
    · simp [h, table_of]
    · simp [instance_of, table_of]
    · rw [h] at hrange
      simp [instance_of_msgs cfg [e] p.m_timing e (hrange e (List.mem_singleton_self e))]
  · intro hlen
    have htab : ∀ e ∈ cfg.m_upstream_downstream_map,
        table_of cfg.m_upstream_downstream_map e =
          (if e.1 < 2 ^ 31 then (e.1 : Int) else (e.1 : Int) - 2 ^ 32) := by
      intro e he
      have : ¬ cfg.m_upstream_downstream_map.length ≤ 1 := by omega
      simp only [table_of, this, if_false]
      exact to_int_eq (hrange e he)
    have hmap : (cfg.m_upstream_downstream_map.map (fun e =>
          (table_of cfg.m_upstream_downstream_map e,
            instance_of cfg cfg.m_upstream_downstream_map p.m_timing e))).map Prod.fst =
        cfg.m_upstream_downstream_map.map
          (fun e => if e.1 < 2 ^ 31 then (e.1 : Int) else (e.1 : Int) - 2 ^ 32) := by
      rw [List.map_map]
      apply List.map_congr_left
      intro e he
      exact htab e he
    refine ⟨hmap, ?_, ?_⟩
    · intro e he
      refine ⟨instance_of cfg cfg.m_upstream_downstream_map p.m_timing e, ?_, ?_, ?_⟩
      · have := std_map_find_map_of_mem cfg.m_upstream_downstream_map
          (table_of cfg.m_upstream_downstream_map)
          (instance_of cfg cfg.m_upstream_downstream_map p.m_timing) hnd e he
        rw [htab e he] at this
        exact this
      · exact htab e he
      · simp [instance_of_msgs cfg _ p.m_timing e (hrange e he)]
    · intro hsmall
      rw [hmap]
      apply List.map_congr_left
      intro e he
      rw [if_pos (hsmall e he)]

/-- C1 amended, at the map with the entries `(1, [2])` and `(2147483648, [3])`. -/
theorem start_proxy_instances_table_witness :
    ∃ p1, start_proxy_instances
        { proxy_initial "mcproxy.conf" 0 with
          m_proxy_configuration :=
            some (proxy_configuration.mk 3 7 [(1, [2]), (2147483648, [3])]) } = some p1 ∧
      p1.m_proxy_instances.length = 2 ∧
      (p1.m_proxy_instances.map Prod.fst).Nodup ∧
      (([(1, [2]), (2147483648, [3])] : List (Nat × List Nat)) = [] →
        p1.m_proxy_instances = []) ∧
      (∀ e, ([(1, [2]), (2147483648, [3])] : List (Nat × List Nat)) = [e] →
        ∃ i, p1.m_proxy_instances = [(0, i)] ∧ i.m_table = 0 ∧
          i.m_msgs.head? = some (config_msg.mk .ADD_UPSTREAM e.1)) ∧
      (2 ≤ 2 →
        p1.m_proxy_instances.map Prod.fst =
            ([(1, [2]), (2147483648, [3])] : List (Nat × List Nat)).map
              (fun e => if e.1 < 2 ^ 31 then (e.1 : Int) else (e.1 : Int) - 2 ^ 32) ∧
          (∀ e ∈ ([(1, [2]), (2147483648, [3])] : List (Nat × List Nat)), ∃ i,
            std_map_find p1.m_proxy_instances
                (if e.1 < 2 ^ 31 then (e.1 : Int) else (e.1 : Int) - 2 ^ 32) = some i ∧
              i.m_table = (if e.1 < 2 ^ 31 then (e.1 : Int) else (e.1 : Int) - 2 ^ 32) ∧
              i.m_msgs.head? = some (config_msg.mk .ADD_UPSTREAM e.1)) ∧
          ((∀ e ∈ ([(1, [2]), (2147483648, [3])] : List (Nat × List Nat)), e.1 < 2 ^ 31) →
            p1.m_proxy_instances.map Prod.fst =
              ([(1, [2]), (2147483648, [3])] : List (Nat × List Nat)).map
                (fun e => (e.1 : Int)))) :=
  start_proxy_instances_table
    { proxy_initial "mcproxy.conf" 0 with
      m_proxy_configuration := some (proxy_configuration.mk 3 7 [(1, [2]), (2147483648, [3])]) }
    (proxy_configuration.mk 3 7 [(1, [2]), (2147483648, [3])]) rfl rfl (by decide) (by decide)

/-! ## The messages posted by `start_proxy_instances` -/

/-- C2: for a configuration with distinct upstream keys (values of `unsigned int`), the
instance `start_proxy_instances` stores for an entry `(u, ds)` has been posted exactly
`ADD_UPSTREAM(u)` followed by `ADD_DOWNSTREAM(d)` for each `d` of `ds` in iteration
order: the first message is the one `ADD_UPSTREAM`, there are `1 + |ds|` messages, no
`DEL_DOWNSTREAM`, and every interface posted is `u` or a member of `ds`. -/
theorem start_proxy_instances_messages (p : proxy) (cfg : proxy_configuration)
    (hcfg : p.m_proxy_configuration = some cfg) (hempty : p.m_proxy_instances = [])
    (hkeys : (cfg.m_upstream_downstream_map.map Prod.fst).Nodup)
    (hrange : ∀ e ∈ cfg.m_upstream_downstream_map, e.1 < 2 ^ 32) :
    ∃ p1, start_proxy_instances p = some p1 ∧
      ∀ e ∈ cfg.m_upstream_downstream_map, ∃ i,
        std_map_find p1.m_proxy_instances
            (if cfg.m_upstream_downstream_map.length ≤ 1 then 0 else to_int e.1) = some i ∧
          i.m_msgs = config_msg.mk .ADD_UPSTREAM e.1 :: e.2.map (config_msg.mk .ADD_DOWNSTREAM) ∧
          i.m_msgs.head? = some (config_msg.mk .ADD_UPSTREAM e.1) ∧
          (i.m_msgs.filter (fun m => m.instruction = .ADD_UPSTREAM)).length = 1 ∧
          i.m_msgs.length = 1 + e.2.length ∧
          (∀ m ∈ i.m_msgs, m.instruction ≠ .DEL_DOWNSTREAM) ∧
          (∀ m ∈ i.m_msgs, m.if_index = e.1 ∨ m.if_index ∈ e.2) := by
  refine ⟨_, start_proxy_instances_eq p cfg hcfg hempty hkeys hrange, ?_⟩
  intro e he
  have hmsgs := instance_of_msgs cfg cfg.m_upstream_downstream_map p.m_timing e (hrange e he)
  refine ⟨instance_of cfg cfg.m_upstream_downstream_map p.m_timing e, ?_, hmsgs, ?_, ?_, ?_, ?_, ?_⟩
  · exact std_map_find_map_of_mem cfg.m_upstream_downstream_map
      (table_of cfg.m_upstream_downstream_map)
      (instance_of cfg cfg.m_upstream_downstream_map p.m_timing)
      (table_of_nodup _ hkeys hrange) e he
  · rw [hmsgs]; rfl
  · rw [hmsgs]
    simp [List.filter_cons, List.filter_map, Function.comp_def]
  · rw [hmsgs]
    simp [Nat.add_comm]
  · rw [hmsgs]
    intro m hm
    rcases List.mem_cons.mp hm with h | h
    · rw [h]; simp
    · obtain ⟨d, _, rfl⟩ := List.mem_map.mp h
      simp
  · rw [hmsgs]
    intro m hm
    rcases List.mem_cons.mp hm with h | h
    · rw [h]; exact Or.inl rfl
    · obtain ⟨d, hd, rfl⟩ := List.mem_map.mp h
      exact Or.inr hd

/-- C2, at a configuration of two entries. -/
theorem start_proxy_instances_messages_witness :
    ∃ p1, start_proxy_instances
        { proxy_initial "mcproxy.conf" 0 with
          m_proxy_configuration := some (proxy_configuration.mk 3 7 [(1, [2, 3]), (4, [5])]) }
          = some p1 ∧
      ∀ e ∈ ([(1, [2, 3]), (4, [5])] : List (Nat × List Nat)), ∃ i,
        std_map_find p1.m_proxy_instances
            (if ([(1, [2, 3]), (4, [5])] : List (Nat × List Nat)).length ≤ 1 then 0
              else to_int e.1) = some i ∧
          i.m_msgs = config_msg.mk .ADD_UPSTREAM e.1 :: e.2.map (config_msg.mk .ADD_DOWNSTREAM) ∧
          i.m_msgs.head? = some (config_msg.mk .ADD_UPSTREAM e.1) ∧
          (i.m_msgs.filter (fun m => m.instruction = .ADD_UPSTREAM)).length = 1 ∧
          i.m_msgs.length = 1 + e.2.length ∧
          (∀ m ∈ i.m_msgs, m.instruction ≠ .DEL_DOWNSTREAM) ∧
          (∀ m ∈ i.m_msgs, m.if_index = e.1 ∨ m.if_index ∈ e.2) :=
  start_proxy_instances_messages
    { proxy_initial "mcproxy.conf" 0 with
      m_proxy_configuration := some (proxy_configuration.mk 3 7 [(1, [2, 3]), (4, [5])]) }
    (proxy_configuration.mk 3 7 [(1, [2, 3]), (4, [5])]) rfl rfl (by decide) (by decide)

/-! ## An upstream interface that is also listed as downstream -/

/-- C4, as claimed, fails: for the map with the entries `(1, [1, 2])` and `(3, [4])`
the instance of the first entry is created and `ADD_DOWNSTREAM(1)` is posted to it. -/
theorem start_proxy_instances_upstream_as_downstream :
    (start_proxy_instances
        { proxy_initial "mcproxy.conf" 0 with
          m_proxy_configuration :=
            some (proxy_configuration.mk 3 7 [(1, [1, 2]), (3, [4])]) }).map
        (fun p1 => p1.m_proxy_instances) =
      some
        [ (1, proxy_instance.mk 3 1 7 0
            [ config_msg.mk .ADD_UPSTREAM 1, config_msg.mk .ADD_DOWNSTREAM 1,
              config_msg.mk .ADD_DOWNSTREAM 2 ]),
          (3, proxy_instance.mk 3 3 7 0
            [ config_msg.mk .ADD_UPSTREAM 3, config_msg.mk .ADD_DOWNSTREAM 4 ]) ] := by
  decide

/-- C4, amended: `start_proxy_instances` makes no consistency check. For an entry
`(u, ds)` with `u` among `ds` it stores an instance like for any other entry, posted
exactly `ADD_UPSTREAM(u)` first and then `ADD_DOWNSTREAM(d)` for each `d` of `ds` in
order, `ADD_DOWNSTREAM(u)` among them; every entry of the map has its instance with
its messages, one instance per entry. -/
theorem start_proxy_instances_no_consistency_check (p : proxy) (cfg : proxy_configuration)
    (hcfg : p.m_proxy_configuration = some cfg) (hempty : p.m_proxy_instances = [])
    (hkeys : (cfg.m_upstream_downstream_map.map Prod.fst).Nodup)
    (hrange : ∀ e ∈ cfg.m_upstream_downstream_map, e.1 < 2 ^ 32)
    (e : Nat × List Nat) (he : e ∈ cfg.m_upstream_downstream_map) (hup : e.1 ∈ e.2) :
    ∃ p1, start_proxy_instances p = some p1 ∧
      (∃ i, std_map_find p1.m_proxy_instances
            (if cfg.m_upstream_downstream_map.length ≤ 1 then 0 else to_int e.1) = some i ∧
          i.m_msgs =
            config_msg.mk .ADD_UPSTREAM e.1 :: e.2.map (config_msg.mk .ADD_DOWNSTREAM) ∧
          i.m_msgs.head? = some (config_msg.mk .ADD_UPSTREAM e.1) ∧
          config_msg.mk .ADD_DOWNSTREAM e.1 ∈ i.m_msgs ∧
          (∀ d ∈ e.2, config_msg.mk .ADD_DOWNSTREAM d ∈ i.m_msgs)) ∧
      p1.m_proxy_instances.length = cfg.m_upstream_downstream_map.length ∧
      ∀ e2 ∈ cfg.m_upstream_downstream_map, ∃ i2,
        std_map_find p1.m_proxy_instances
            (if cfg.m_upstream_downstream_map.length ≤ 1 then 0 else to_int e2.1) = some i2 ∧
          i2.m_msgs =
            config_msg.mk .ADD_UPSTREAM e2.1 :: e2.2.map (config_msg.mk .ADD_DOWNSTREAM) := by
  have hfind : ∀ e2 ∈ cfg.m_upstream_downstream_map,
      std_map_find
          (cfg.m_upstream_downstream_map.map (fun x =>
            (table_of cfg.m_upstream_downstream_map x,
              instance_of cfg cfg.m_upstream_downstream_map p.m_timing x)))
          (if cfg.m_upstream_downstream_map.length ≤ 1 then 0 else to_int e2.1) =
        some (instance_of cfg cfg.m_upstream_downstream_map p.m_timing e2) :=
    fun e2 he2 => std_map_find_map_of_mem cfg.m_upstream_downstream_map
      (table_of cfg.m_upstream_downstream_map)
      (instance_of cfg cfg.m_upstream_downstream_map p.m_timing)
      (table_of_nodup _ hkeys hrange) e2 he2
  have hmsgs := instance_of_msgs cfg cfg.m_upstream_downstream_map p.m_timing e (hrange e he)
  refine ⟨_, start_proxy_instances_eq p cfg hcfg hempty hkeys hrange, ?_, ?_, ?_⟩
  · refine ⟨_, hfind e he, hmsgs, ?_, ?_, ?_⟩
    · rw [hmsgs]; rfl
    · rw [hmsgs]
      exact List.mem_cons_of_mem _ (List.mem_map_of_mem _ hup)
    · intro d hd
      rw [hmsgs]
      exact List.mem_cons_of_mem _ (List.mem_map_of_mem _ hd)
  · simp
  · intro e2 he2
    exact ⟨_, hfind e2 he2, instance_of_msgs cfg _ p.m_timing e2 (hrange e2 he2)⟩

/-- C4 amended, at the map with the entries `(1, [1, 2])` and `(3, [4])`. -/
theorem start_proxy_instances_no_consistency_check_witness :
    ∃ p1, start_proxy_instances
        { proxy_initial "mcproxy.conf" 0 with
          m_proxy_configuration :=
            some (proxy_configuration.mk 3 7 [(1, [1, 2]), (3, [4])]) } = some p1 ∧
      (∃ i, std_map_find p1.m_proxy_instances
            (if ([(1, [1, 2]), (3, [4])] : List (Nat × List Nat)).length ≤ 1 then 0
              else to_int 1) = some i ∧
          i.m_msgs =
            config_msg.mk .ADD_UPSTREAM 1 ::
              ([1, 2] : List Nat).map (config_msg.mk .ADD_DOWNSTREAM) ∧
          i.m_msgs.head? = some (config_msg.mk .ADD_UPSTREAM 1) ∧
          config_msg.mk .ADD_DOWNSTREAM 1 ∈ i.m_msgs ∧
          (∀ d ∈ ([1, 2] : List Nat), config_msg.mk .ADD_DOWNSTREAM d ∈ i.m_msgs)) ∧
      p1.m_proxy_instances.length = 2 ∧
      ∀ e2 ∈ ([(1, [1, 2]), (3, [4])] : List (Nat × List Nat)), ∃ i2,
        std_map_find p1.m_proxy_instances
            (if ([(1, [1, 2]), (3, [4])] : List (Nat × List Nat)).length ≤ 1 then 0
              else to_int e2.1) = some i2 ∧
          i2.m_msgs =
            config_msg.mk .ADD_UPSTREAM e2.1 :: e2.2.map (config_msg.mk .ADD_DOWNSTREAM) :=
  start_proxy_instances_no_consistency_check
    { proxy_initial "mcproxy.conf" 0 with
      m_proxy_configuration := some (proxy_configuration.mk 3 7 [(1, [1, 2]), (3, [4])]) }
    (proxy_configuration.mk 3 7 [(1, [1, 2]), (3, [4])]) rfl rfl (by decide) (by decide)
    (1, [1, 2]) (by decide) (by decide)

/-! ## Frame of `prozess_commandline_args` -/

theorem same_core_refl (p : proxy) : same_core p p := ⟨rfl, rfl, rfl, rfl⟩

theorem getopt_loop_same_core (posix : Bool) (args : List String) (fuel : Nat) :
    ∀ (p : proxy) (l : cmdline_locals) (g : getopt_state)
      (r : completion × proxy × cmdline_locals × getopt_state),
      getopt_loop posix args fuel p l g = some r → same_core p r.2.1 := by
  induction fuel with
  | zero => intro p l g r h; simp [getopt_loop] at h
  | succ n ih =>
    intro p l g r h
    rw [getopt_loop] at h
    split at h
    · cases h; exact same_core_refl p
    · split_ifs at h
      · cases h; exact same_core_refl p
      · exact ih _ _ _ _ h
      · have h1 := ih _ _ _ _ h; exact h1
      · exact ih _ _ _ _ h
      · have h1 := ih _ _ _ _ h; exact h1
      · have h1 := ih _ _ _ _ h; exact h1
      · split at h
        · cases h
        · have h1 := ih _ _ _ _ h; exact h1
      · cases h; exact same_core_refl p

theorem scan_commandline_same_core (posix : Bool) (args : List String) (p : proxy)
    (r : completion × proxy × cmdline_locals × getopt_state)
    (h : scan_commandline posix args p = some r) : same_core p r.2.1 := by
  unfold scan_commandline at h
  split_ifs at h
  · cases h; exact same_core_refl p
  · exact getopt_loop_same_core posix args _ _ _ _ _ h

theorem select_log_lvl_same_core (b : Bool) (p : proxy) : same_core p (select_log_lvl b p).2 := by
  unfold select_log_lvl
  split_ifs <;> exact ⟨rfl, rfl, rfl, rfl⟩

theorem same_core_trans {p q r : proxy} (h1 : same_core p q) (h2 : same_core q r) :
    same_core p r :=
  ⟨h2.1.trans h1.1, h2.2.1.trans h1.2.1, h2.2.2.1.trans h1.2.2.1, h2.2.2.2.trans h1.2.2.2⟩

theorem after_scan_same_core (arg_count optind : Nat) (l : cmdline_locals) (p1 : proxy) :
    same_core p1 (after_scan arg_count optind l p1).2 := by
  have h3 := select_log_lvl_same_core l.is_logging p1
  unfold after_scan
  by_cases hleft : optind < arg_count
  · rw [if_pos hleft]
    exact same_core_refl p1
  · rw [if_neg hleft]
    cases hsel : select_log_lvl l.is_logging p1 with
    | mk c2 p2 =>
      rw [hsel] at h3
      cases c2 with
      | throws m => exact h3
      | returns =>
        simp only
        split_ifs <;> exact h3

theorem prozess_commandline_args_same_core (posix : Bool) (args : List String) (p : proxy)
    (r : completion × proxy) (h : prozess_commandline_args posix args p = some r) :
    same_core p r.2 := by
  unfold prozess_commandline_args at h
  simp only at h
  cases hs : scan_commandline posix args p with
  | none => rw [hs] at h; cases h
  | some sc =>
    obtain ⟨c, p1, l, g⟩ := sc
    have h1 : same_core p p1 := scan_commandline_same_core posix args p _ hs
    rw [hs] at h
    cases c with
    | throws m => cases h; exact h1
    | returns =>
      simp only [Option.some.injEq] at h
      rw [← h]
      exact same_core_trans h1 (after_scan_same_core _ _ _ _)

/-! ## The constructor without root privileges -/

theorem signal_handler_of_not_running (p : proxy) (h : p.m_running = false) :
    signal_handler p = p := by
  cases p
  simp only [signal_handler] at *
  rw [h]

theorem root_check_stage_not_running (env : environment) (p1 : proxy)
    (h1 : p1.m_running = false) (k : Nat) : (root_check_stage env p1 k).p.m_running = false := by
  match k with
  | 0 => rfl
  | 1 => rfl
  | 2 => exact h1
  | _ + 3 => exact h1

theorem root_check_stage_step (env : environment) (p1 : proxy)
    (hargs : prozess_commandline_args env.posixly_correct env.args
      (proxy_initial env.default_config_path env.timing) = some (.returns, p1))
    (heuid : env.euid ≠ 0) (k : Nat) :
    (fire env .step (root_check_stage env p1 k)).getD (root_check_stage env p1 k) =
      root_check_stage env p1 (k + 1) := by
  match k with
  | 0 => rfl
  | 1 => simp [fire, constructor_step, root_check_stage, hargs]
  | 2 => simp [fire, constructor_step, root_check_stage, heuid]
  | _ + 3 => simp [fire, constructor_step, root_check_stage]

theorem root_check_stage_signal (env : environment) (p1 : proxy)
    (h1 : p1.m_running = false) (k : Nat) :
    (fire env .signal (root_check_stage env p1 k)).getD (root_check_stage env p1 k) =
      root_check_stage env p1 k := by
  have h := signal_handler_of_not_running _ (root_check_stage_not_running env p1 h1 k)
  match k with
  | 0 => rfl
  | 1 => simp only [fire, root_check_stage, Option.getD_some] at h ⊢; rw [h]
  | 2 => simp only [fire, root_check_stage, Option.getD_some] at h ⊢; rw [h]
  | _ + 3 => simp only [fire, root_check_stage, Option.getD_some] at h ⊢; rw [h]

theorem run_root_check_stage (env : environment) (p1 : proxy)
    (hargs : prozess_commandline_args env.posixly_correct env.args
      (proxy_initial env.default_config_path env.timing) = some (.returns, p1))
    (heuid : env.euid ≠ 0) (evs : List event) :
    ∀ k, run env evs (root_check_stage env p1 k) =
      root_check_stage env p1 (k + evs.count .step) := by
  have h1 : p1.m_running = false :=
    (prozess_commandline_args_same_core _ _ _ _ hargs).1
  induction evs with
  | nil => intro k; rfl
  | cons e es ih =>
    intro k
    cases e with
    | step =>
      rw [run, root_check_stage_step env p1 hargs heuid k, ih, List.count_cons_self]
      congr 1
      omega
    | signal =>
      rw [run, root_check_stage_signal env p1 h1 k, ih]
      simp [List.count_cons]

/-- C3: when the argument vector passes `prozess_commandline_args` and the effective
user id is not 0, then in every execution of the constructor, signals included, the
configuration stays null, the instance table stays empty, no message is posted and
the running flag stays false; the third statement of the constructor is the root
check, and from then on the constructor has ended with the root privilege error, in
the state the argument processing left. -/
theorem constructor_fails_without_root (env : environment) (p1 : proxy)
    (hargs : prozess_commandline_args env.posixly_correct env.args
      (proxy_initial env.default_config_path env.timing) = some (.returns, p1))
    (heuid : env.euid ≠ 0) (evs : List event) :
    (run env evs (world_initial env)).p.m_proxy_configuration = none ∧
      (run env evs (world_initial env)).p.m_proxy_instances = [] ∧
      posted_msgs (run env evs (world_initial env)).p.m_proxy_instances = [] ∧
      (run env evs (world_initial env)).p.m_running = false ∧
      (3 ≤ evs.count .step →
        run env evs (world_initial env) =
          { ctl := .thrown "The mcproxy has to be started with root privileges!", p := p1 }) := by
  have hcore := prozess_commandline_args_same_core _ _ _ _ hargs
  have hrun : run env evs (world_initial env) = root_check_stage env p1 (0 + evs.count .step) :=
    run_root_check_stage env p1 hargs heuid evs 0
  rw [hrun, Nat.zero_add]
  have hall : ∀ k, (root_check_stage env p1 k).p.m_proxy_configuration = none ∧
      (root_check_stage env p1 k).p.m_proxy_instances = [] ∧
      (root_check_stage env p1 k).p.m_running = false := by
    intro k
    match k with
    | 0 => exact ⟨rfl, rfl, rfl⟩
    | 1 => exact ⟨rfl, rfl, rfl⟩
    | 2 => exact ⟨hcore.2.1, hcore.2.2.2, hcore.1⟩
    | _ + 3 => exact ⟨hcore.2.1, hcore.2.2.2, hcore.1⟩
  refine ⟨(hall _).1, (hall _).2.1, by rw [(hall _).2.1]; rfl, (hall _).2.2, ?_⟩
  intro h3
  obtain ⟨n, hn⟩ : ∃ n, evs.count .step = n + 3 := ⟨evs.count .step - 3, by omega⟩
  rw [hn]
  rfl

/-- C3, for the example user: a signal between the statements changes nothing. -/
theorem constructor_fails_without_root_witness :
    (run example_environment_user [.step, .signal, .step, .step, .signal, .step]
        (world_initial example_environment_user)).p.m_proxy_configuration = none ∧
      (run example_environment_user [.step, .signal, .step, .step, .signal, .step]
        (world_initial example_environment_user)).p.m_proxy_instances = [] ∧
      posted_msgs (run example_environment_user [.step, .signal, .step, .step, .signal, .step]
        (world_initial example_environment_user)).p.m_proxy_instances = [] ∧
      (run example_environment_user [.step, .signal, .step, .step, .signal, .step]
        (world_initial example_environment_user)).p.m_running = false ∧
      (3 ≤ [event.step, .signal, .step, .step, .signal, .step].count .step →
        run example_environment_user [.step, .signal, .step, .step, .signal, .step]
            (world_initial example_environment_user) =
          { ctl := .thrown "The mcproxy has to be started with root privileges!"
            p := { proxy_initial "mcproxy.conf" 0 with
                   default_log_lvl := some .HC_LOG_ERROR_LVL } }) :=
  constructor_fails_without_root example_environment_user
    { proxy_initial "mcproxy.conf" 0 with default_log_lvl := some .HC_LOG_ERROR_LVL }
    (by decide) (by decide) [.step, .signal, .step, .step, .signal, .step]

/-! ## The running flag -/

/-- C6: `to_string` is read only. On every state with a loaded configuration (every
state after line 62) the call returns its text and leaves the whole state, that is
every member, the running flag and the instance table, as it was; a second call
returns the same text. On a state without configuration line 349 has no defined
result, and in no case is a changed state returned. -/
theorem to_string_read_only (configuration_to_string : proxy_configuration → String)
    (p : proxy) :
    (∀ r, to_string configuration_to_string p = some r → r.2 = p) ∧
      (∀ cfg, p.m_proxy_configuration = some cfg →
        ∃ s, to_string configuration_to_string p = some (s, p) ∧
          (to_string configuration_to_string p).bind
            (fun r => to_string configuration_to_string r.2) = some (s, p)) := by
  have hsome : ∀ cfg, p.m_proxy_configuration = some cfg →
      ∃ s, to_string configuration_to_string p = some (s, p) := by
    intro cfg hcfg
    simp only [to_string, hcfg]
    exact ⟨_, rfl⟩
  constructor
  · intro r h
    cases hc : p.m_proxy_configuration with
    | none => simp only [to_string, hc] at h; cases h
    | some cfg =>
      obtain ⟨s, hs⟩ := hsome cfg hc
      rw [hs] at h
      rw [← Option.some.inj h]
  · intro cfg hcfg
    obtain ⟨s, hs⟩ := hsome cfg hcfg
    exact ⟨s, hs, by rw [hs, Option.some_bind, hs]⟩

/-- C6, on the state the example environment reaches when `start` has returned. -/
theorem to_string_read_only_witness :
    ∃ s, to_string (fun _ => "cfg")
          (run example_environment [.step, .step, .step, .step, .step, .step, .signal, .step]
            (world_initial example_environment)).p =
        some (s, (run example_environment
          [.step, .step, .step, .step, .step, .step, .signal, .step]
            (world_initial example_environment)).p) ∧
      (to_string (fun _ => "cfg")
          (run example_environment [.step, .step, .step, .step, .step, .step, .signal, .step]
            (world_initial example_environment)).p).bind
        (fun r => to_string (fun _ => "cfg") r.2) =
        some (s, (run example_environment
          [.step, .step, .step, .step, .step, .step, .signal, .step]
            (world_initial example_environment)).p) :=
  (to_string_read_only (fun _ => "cfg")
    (run example_environment [.step, .step, .step, .step, .step, .step, .signal, .step]
      (world_initial example_environment)).p).2
    (proxy_configuration.mk 3 7 [(1, [2, 3]), (4, [5])]) (by decide)

/-! ## `getopt`: every call that yields an option consumes input -/

theorem optstring_eq : optstring = ['h', 'r', 'd', 's', 'v', 'c', 'f', ':'] := by decide

theorem optstring_lookup_cases (c : Char) :
    optstring_lookup optstring c =
      if c = 'h' ∨ c = 'r' ∨ c = 'd' ∨ c = 's' ∨ c = 'v' ∨ c = 'c' then some false
      else if c = 'f' then some true
      else if c = ':' then some false
      else none := by
  rw [optstring_eq]
  simp only [optstring_lookup]
  by_cases h1 : c = 'h'
  · subst h1; decide
  by_cases h2 : c = 'r'
  · subst h2; decide
  by_cases h3 : c = 'd'
  · subst h3; decide
  by_cases h4 : c = 's'
  · subst h4; decide
  by_cases h5 : c = 'v'
  · subst h5; decide
  by_cases h6 : c = 'c'
  · subst h6; decide
  by_cases h7 : c = 'f'
  · subst h7; decide
  by_cases h8 : c = ':'
  · subst h8; decide
  have e1 : ¬ ('h' = c) := fun h => h1 h.symm
  have e2 : ¬ ('r' = c) := fun h => h2 h.symm
  have e3 : ¬ ('d' = c) := fun h => h3 h.symm
  have e4 : ¬ ('s' = c) := fun h => h4 h.symm
  have e5 : ¬ ('v' = c) := fun h => h5 h.symm
  have e6 : ¬ ('c' = c) := fun h => h6 h.symm
  have e7 : ¬ ('f' = c) := fun h => h7 h.symm
  have e8 : ¬ (':' = c) := fun h => h8 h.symm
  simp [h1, h2, h3, h4, h5, h6, h7, h8, e1, e2, e3, e4, e5, e6, e7, e8]

theorem argv_weight_succ_le (args : List String) (i : Nat) :
    argv_weight args (i + 1) ≤ argv_weight args i := by
  unfold argv_weight
  induction args generalizing i with
  | nil => simp
  | cons a rest ih =>
    cases i with
    | zero => simp
    | succ n => simpa using ih n

theorem argv_weight_add_le (args : List String) (i n : Nat) :
    argv_weight args (i + n) ≤ argv_weight args i := by
  induction n with
  | zero => exact le_refl _
  | succ k ih => exact le_trans (argv_weight_succ_le args (i + k)) ih

theorem argv_weight_of_get (args : List String) (i : Nat) (a : String)
    (h : args[i]? = some a) :
    argv_weight args i = a.length + 1 + argv_weight args (i + 1) := by
  unfold argv_weight
  induction args generalizing i with
  | nil => simp at h
  | cons b rest ih =>
    cases i with
    | zero =>
      simp at h
      subst h
      simp
    | succ n =>
      simp at h
      simpa using ih n h


theorem getopt_short_value (args : List String) (c : Char) (cs : List Char) (g : getopt_state) :
    ∃ c1, (getopt_short args optstring c cs g).1 = some c1 ∧ option_value c1 ∧
      (c1 = 'f' → ∃ a, (getopt_short args optstring c cs g).2.optarg = some a) := by
  unfold getopt_short
  simp only [optstring_lookup_cases]
  by_cases h0 : c = ':' ∨ c = ';'
  · rw [if_pos h0]
    exact ⟨'?', rfl, Or.inl rfl, fun h => absurd h (by decide)⟩
  · rw [if_neg h0]
    by_cases h1 : c = 'h' ∨ c = 'r' ∨ c = 'd' ∨ c = 's' ∨ c = 'v' ∨ c = 'c'
    · rw [if_pos h1]
      refine ⟨c, rfl, ?_, ?_⟩
      · unfold option_value; tauto
      · intro hf
        subst hf
        exact absurd h1 (by decide)
    · rw [if_neg h1]
      by_cases h2 : c = 'f'
      · rw [if_pos h2]
        subst h2
        by_cases h3 : cs = []
        · simp only [h3, ne_eq, not_true_eq_false, if_false, if_true]
          split
          · exact ⟨'?', rfl, Or.inl rfl, fun h => absurd h (by decide)⟩
          · exact ⟨'f', rfl, by unfold option_value; tauto, fun _ => ⟨_, rfl⟩⟩
        · simp only [h3, ne_eq, not_false_eq_true, if_true, if_false]
          exact ⟨'f', rfl, by unfold option_value; tauto, fun _ => ⟨_, rfl⟩⟩
      · rw [if_neg h2]
        have h3 : ¬ c = ':' := fun h => h0 (Or.inl h)
        rw [if_neg h3]
        exact ⟨'?', rfl, Or.inl rfl, fun h => absurd h (by decide)⟩

/-- The value `?` is returned for an option character outside `hrdsvcf`, and for `f` at
the end of the last element of `argv`, where its argument is missing. -/
theorem getopt_short_unknown_iff (args : List String) (c : Char) (cs : List Char)
    (g : getopt_state) :
    (getopt_short args optstring c cs g).1 = some '?' ↔
      (¬ (c = 'h' ∨ c = 'r' ∨ c = 'd' ∨ c = 's' ∨ c = 'v' ∨ c = 'c' ∨ c = 'f')) ∨
        (c = 'f' ∧ cs = [] ∧ args[g.optind + 1]? = none) := by
  unfold getopt_short
  simp only [optstring_lookup_cases]
  by_cases h0 : c = ':' ∨ c = ';'
  · rw [if_pos h0]
    have : ¬ (c = 'h' ∨ c = 'r' ∨ c = 'd' ∨ c = 's' ∨ c = 'v' ∨ c = 'c' ∨ c = 'f') := by
      rcases h0 with h | h <;> subst h <;> decide
    simp [this]
  · rw [if_neg h0]
    by_cases h1 : c = 'h' ∨ c = 'r' ∨ c = 'd' ∨ c = 's' ∨ c = 'v' ∨ c = 'c'
    · rw [if_pos h1]
      have hq : ¬ (c = '?') := by
        rcases h1 with h | h | h | h | h | h <;> subst h <;> decide
      have hf : ¬ (c = 'f') := by
        rcases h1 with h | h | h | h | h | h <;> subst h <;> decide
      have hall : c = 'h' ∨ c = 'r' ∨ c = 'd' ∨ c = 's' ∨ c = 'v' ∨ c = 'c' ∨ c = 'f' := by
        tauto
      constructor
      · intro h
        exact absurd (Option.some.inj h) hq
      · rintro (h | h)
        · exact absurd hall h
        · exact absurd h.1 hf
    · rw [if_neg h1]
      by_cases h2 : c = 'f'
      · rw [if_pos h2]
        subst h2
        by_cases h3 : cs = []
        · subst h3
          simp only [if_true, ne_eq, not_true_eq_false, if_false]
          cases hget : args[g.optind + 1]? with
          | none => simp
          | some a => simp
        · simp [h3]
      · rw [if_neg h2]
        have h3 : ¬ c = ':' := fun h => h0 (Or.inl h)
        rw [if_neg h3]
        have : ¬ (c = 'h' ∨ c = 'r' ∨ c = 'd' ∨ c = 's' ∨ c = 'v' ∨ c = 'c' ∨ c = 'f') := by
          tauto
        simp [this]

theorem getopt_short_measure (args : List String) (c : Char) (cs : List Char)
    (g : getopt_state) :
    getopt_measure args (getopt_short args optstring c cs g).2 ≤
      cs.length + argv_weight args (g.optind + 1) := by
  have hw := argv_weight_succ_le args (g.optind + 1)
  unfold getopt_short
  by_cases h3 : cs = []
  · subst h3
    simp only [if_true, ne_eq, not_true_eq_false, if_false]
    split
    · simp [getopt_measure]
    · simp [getopt_measure]
    · split
      · simp [getopt_measure]
      · simpa [getopt_measure] using hw
  · simp only [h3, if_false, ne_eq, not_false_eq_true, if_true]
    split
    · simp [getopt_measure, h3]
    · simp [getopt_measure, h3]
    · simp [getopt_measure]


theorem string_length_data (a : String) : a.length = a.data.length := by
  cases a; rfl

theorem getopt_some (posix : Bool) (args : List String) (g g1 : getopt_state) (c : Char)
    (h : getopt posix args optstring g = (some c, g1)) :
    option_value c ∧ (c = 'f' → ∃ a, g1.optarg = some a) ∧
      getopt_measure args g1 < getopt_measure args g := by
  have key : ∀ (c0 : Char) (cs : List Char) (g2 : getopt_state),
      getopt_short args optstring c0 cs g2 = (some c, g1) →
      option_value c ∧ (c = 'f' → ∃ a, g1.optarg = some a) ∧
        getopt_measure args g1 ≤ cs.length + argv_weight args (g2.optind + 1) := by
    intro c0 cs g2 hs
    obtain ⟨c1, hc1, hv, hf⟩ := getopt_short_value args c0 cs g2
    have hm := getopt_short_measure args c0 cs g2
    rw [hs] at hc1 hf hm
    cases hc1
    exact ⟨hv, hf, hm⟩
  unfold getopt at h
  split_ifs at h with hlen
  · cases h
  · simp only at h
    split at h
    · rename_i c0 cs hnext
      obtain ⟨hv, hf, hm⟩ := key _ _ _ h
      refine ⟨hv, hf, ?_⟩
      simp only [getopt_measure, hnext] at hm ⊢
      simp only [List.length_cons, reduceCtorEq, if_false]
      omega
    · rename_i hnext
      split at h
      · cases h
      · rename_i a hget
        split_ifs at h with hdash
        · cases h
        · split at h
          · rename_i c0 cs hdata
            obtain ⟨hv, hf, hm⟩ := key _ _ _ h
            refine ⟨hv, hf, ?_⟩
            have hw := argv_weight_of_get args _ a hget
            have hlen2 : a.length = cs.length + 2 := by
              rw [string_length_data]
              have : a.data = '-' :: c0 :: cs := hdata
              rw [this]; rfl
            have hle := argv_weight_add_le args g.optind (skip_count posix args g.optind)
            simp only [getopt_measure, hnext, List.length_nil, if_true, Nat.zero_add] at hm ⊢
            simp only at hm hw hle
            omega
          · cases h

theorem getopt_fuel_eq (args : List String) : getopt_fuel args = argv_weight args 0 + 1 := by
  simp [getopt_fuel, argv_weight]

theorem getopt_initial_measure (args : List String) :
    getopt_measure args getopt_initial < getopt_fuel args := by
  have h := argv_weight_succ_le args 0
  rw [getopt_fuel_eq]
  simp only [getopt_measure, getopt_initial, List.length_nil, if_true, Nat.zero_add] at h ⊢
  omega

theorem getopt_trace_total (posix : Bool) (args : List String) (fuel : Nat) :
    ∀ g, getopt_measure args g < fuel →
      ∃ ys gfin, getopt_trace posix args fuel g = some (ys, gfin) ∧
        ∀ y ∈ ys, option_value y.1 ∧ (y.1 = 'f' → ∃ a, y.2 = some a) := by
  induction fuel with
  | zero => intro g h; omega
  | succ n ih =>
    intro g h
    rw [getopt_trace]
    cases hg : getopt posix args optstring g with
    | mk r g1 =>
      cases r with
      | none => exact ⟨[], g1, rfl, by simp⟩
      | some c =>
        obtain ⟨hv, hf, hm⟩ := getopt_some posix args g g1 c hg
        obtain ⟨ys, gfin, ht, hys⟩ := ih g1 (by omega)
        simp only [ht]
        refine ⟨(c, g1.optarg) :: ys, gfin, rfl, ?_⟩
        intro y hy
        rcases List.mem_cons.mp hy with h1 | h1
        · subst h1; exact ⟨hv, hf⟩
        · exact hys y h1

theorem skip_nonoptions_le (l : List String) : skip_nonoptions l ≤ l.length := by
  induction l with
  | nil => simp [skip_nonoptions]
  | cons a rest ih =>
    simp only [skip_nonoptions, List.length_cons]
    split_ifs <;> omega

theorem skip_count_le (posix : Bool) (args : List String) (i : Nat) (h : i ≤ args.length) :
    i + skip_count posix args i ≤ args.length := by
  unfold skip_count
  split_ifs
  · omega
  · have := skip_nonoptions_le (args.drop i)
    rw [List.length_drop] at this
    omega

theorem getopt_short_inv (args : List String) (c : Char) (cs : List Char) (g : getopt_state)
    (h : g.optind < args.length) : getopt_inv args (getopt_short args optstring c cs g).2 := by
  unfold getopt_short
  by_cases h3 : cs = []
  · subst h3
    simp only [if_true, ne_eq, not_true_eq_false, if_false]
    split
    · exact ⟨h, fun hx => absurd rfl hx⟩
    · exact ⟨h, fun hx => absurd rfl hx⟩
    · split
      · exact ⟨h, fun hx => absurd rfl hx⟩
      · rename_i a hget
        have := (List.getElem?_eq_some_iff.mp hget).1
        exact ⟨this, fun hx => absurd rfl hx⟩
  · simp only [h3, if_false, ne_eq, not_false_eq_true, if_true]
    split
    · exact ⟨le_of_lt h, fun _ => h⟩
    · exact ⟨le_of_lt h, fun _ => h⟩
    · exact ⟨h, fun hx => absurd rfl hx⟩

theorem getopt_preserves_inv (posix : Bool) (args : List String) (g : getopt_state)
    (hargs : args ≠ []) (hg : getopt_inv args g) :
    getopt_inv args (getopt posix args optstring g).2 := by
  have hpos : ¬ args.length < 1 := by
    have := List.length_pos.mpr hargs
    omega
  unfold getopt
  rw [if_neg hpos]
  simp only
  split
  · rename_i c0 cs hnext
    exact getopt_short_inv args c0 cs _ (hg.2 (by rw [hnext]; simp))
  · rename_i hnext
    have hle := skip_count_le posix args g.optind hg.1
    split
    · exact ⟨le_trans (Nat.sub_le _ _) hle, fun hx => absurd hnext hx⟩
    · rename_i a hget
      have hlt := (List.getElem?_eq_some_iff.mp hget).1
      simp only at hlt
      split_ifs
      · refine ⟨?_, fun hx => absurd hnext hx⟩
        simp only
        omega
      · split
        · exact getopt_short_inv args _ _ _ hlt
        · exact ⟨hle, fun hx => absurd hnext hx⟩

theorem getopt_trace_inv (posix : Bool) (args : List String) (hargs : args ≠ []) (fuel : Nat) :
    ∀ g ys gfin, getopt_inv args g → getopt_trace posix args fuel g = some (ys, gfin) →
      getopt_inv args gfin := by
  induction fuel with
  | zero => intro g ys gfin _ h; simp [getopt_trace] at h
  | succ n ih =>
    intro g ys gfin hg h
    rw [getopt_trace] at h
    have hinv := getopt_preserves_inv posix args g hargs hg
    cases hgo : getopt posix args optstring g with
    | mk r g1 =>
      rw [hgo] at h hinv
      cases r with
      | none =>
        simp only [Option.some.injEq, Prod.mk.injEq] at h
        rw [← h.2]; exact hinv
      | some c =>
        simp only at h
        cases ht : getopt_trace posix args n g1 with
        | none => rw [ht] at h; cases h
        | some r2 =>
          obtain ⟨ys2, g2⟩ := r2
          rw [ht] at h
          simp only [Option.some.injEq, Prod.mk.injEq] at h
          rw [← h.2]
          exact ih g1 ys2 g2 hinv ht

/-! ## The loop of lines 128 to 162 on the values of `getopt` -/

theorem getopt_loop_eq_loop_on (posix : Bool) (args : List String) (fuel : Nat) :
    ∀ (g : getopt_state) (ys : List (Char × Option String)) (gfin : getopt_state)
      (p : proxy) (l : cmdline_locals),
      getopt_trace posix args fuel g = some (ys, gfin) →
      (∀ y ∈ ys, y.1 = 'f' → ∃ a, y.2 = some a) →
      ∃ gx, getopt_loop posix args fuel p l g =
          some ((loop_on ys p l).1, (loop_on ys p l).2.1, (loop_on ys p l).2.2, gx) ∧
        ((loop_on ys p l).1 = .returns → gx = gfin) := by
  induction fuel with
  | zero => intro g ys gfin p l h; simp [getopt_trace] at h
  | succ n ih =>
    intro g ys gfin p l h hf
    rw [getopt_trace] at h
    rw [getopt_loop]
    cases hgo : getopt posix args optstring g with
    | mk r g1 =>
      rw [hgo] at h
      cases r with
      | none =>
        simp only [Option.some.injEq, Prod.mk.injEq] at h
        obtain ⟨h1, h2⟩ := h
        subst h1 h2
        exact ⟨g1, rfl, fun _ => rfl⟩
      | some c =>
        simp only at h
        cases ht : getopt_trace posix args n g1 with
        | none => rw [ht] at h; cases h
        | some r2 =>
          obtain ⟨ys2, g2⟩ := r2
          rw [ht] at h
          simp only [Option.some.injEq, Prod.mk.injEq] at h
          obtain ⟨h1, h2⟩ := h
          subst h1 h2
          have hf2 : ∀ y ∈ ys2, y.1 = 'f' → ∃ a, y.2 = some a :=
            fun y hy => hf y (List.mem_cons_of_mem _ hy)
          simp only [loop_on]
          by_cases c1 : c = 'h'
          · simp only [c1, if_true]
            exact ⟨g1, rfl, fun hx => by cases hx⟩
          simp only [c1, if_false]
          by_cases c2 : c = 'c'
          · simp only [c2, if_true]; exact ih g1 ys2 g2 _ _ ht hf2
          simp only [c2, if_false]
          by_cases c3 : c = 'r'
          · simp only [c3, if_true]; exact ih g1 ys2 g2 _ _ ht hf2
          simp only [c3, if_false]
          by_cases c4 : c = 'd'
          · simp only [c4, if_true]; exact ih g1 ys2 g2 _ _ ht hf2
          simp only [c4, if_false]
          by_cases c5 : c = 's'
          · simp only [c5, if_true]; exact ih g1 ys2 g2 _ _ ht hf2
          simp only [c5, if_false]
          by_cases c6 : c = 'v'
          · simp only [c6, if_true]; exact ih g1 ys2 g2 _ _ ht hf2
          simp only [c6, if_false]
          by_cases c7 : c = 'f'
          · simp only [c7, if_true]
            obtain ⟨a, ha⟩ := hf (c, g1.optarg) (List.mem_cons_self _ _) c7
            simp only at ha
            simp only [ha, Option.getD_some]
            exact ih g1 ys2 g2 _ _ ht hf2
          simp only [c7, if_false]
          exact ⟨g1, rfl, fun hx => by cases hx⟩

theorem getopt_single (posix : Bool) (args : List String) (h : args.length = 1) :
    getopt posix args optstring getopt_initial = (none, getopt_initial) := by
  match args, h with
  | [a], _ =>
    simp [getopt, getopt_initial, skip_count, skip_nonoptions]

theorem loop_on_verbose (ys : List (Char × Option String)) :
    ∀ (p : proxy) (l : cmdline_locals), p.m_verbose_lvl ≤ (loop_on ys p l).2.1.m_verbose_lvl := by
  induction ys with
  | nil => intro p l; exact le_refl _
  | cons y ys ih =>
    intro p l
    obtain ⟨c, oa⟩ := y
    simp only [loop_on]
    split_ifs
    · exact le_refl _
    · exact ih _ _
    · exact ih _ _
    · exact ih _ _
    · exact ih _ _
    · exact le_trans (by simp) (ih _ _)
    · exact ih _ _
    · exact le_refl _

theorem loop_on_check_kernel (ys : List (Char × Option String)) :
    ∀ (p : proxy) (l : cmdline_locals), (loop_on ys p l).1 = .returns →
      ((loop_on ys p l).2.2.is_check_kernel = true ↔
        (l.is_check_kernel = true ∨ 'c' ∈ ys.map Prod.fst)) := by
  induction ys with
  | nil => intro p l _; simp [loop_on]
  | cons y ys ih =>
    intro p l
    obtain ⟨c, oa⟩ := y
    simp only [loop_on, List.map_cons, List.mem_cons]
    by_cases c1 : c = 'h'
    · simp only [c1, if_true]; intro hx; cases hx
    simp only [c1, if_false]
    by_cases c2 : c = 'c'
    · simp only [c2, if_true]
      intro hr
      rw [ih _ _ hr]
      simp
    have c2b : ¬ ('c' = c) := fun h => c2 h.symm
    simp only [c2, if_false, c2b, false_or]
    split_ifs
    · exact ih _ _
    · exact ih _ _
    · exact ih _ _
    · exact ih _ _
    · exact ih _ _
    · intro hx; cases hx

theorem loop_on_completion (ys : List (Char × Option String))
    (hys : ∀ y ∈ ys, option_value y.1) :
    ∀ (p : proxy) (l : cmdline_locals), (loop_on ys p l).1 =
      match first_stop ys with
      | some c =>
        if c = 'h' then .throws ""
        else .throws "Unknown argument! See help (-h) for more information."
      | none => .returns := by
  induction ys with
  | nil => intro p l; rfl
  | cons y ys ih =>
    intro p l
    obtain ⟨c, oa⟩ := y
    have hc : option_value c := hys (c, oa) (List.mem_cons_self _ _)
    have ih2 := ih (fun y hy => hys y (List.mem_cons_of_mem _ hy))
    unfold option_value at hc
    simp only [loop_on, first_stop, List.map_cons, List.find?_cons]
    rcases hc with h | h | h | h | h | h | h | h <;> subst h <;> simp only [first_stop] at ih2 <;>
      first
        | exact ih2 _ _
        | rfl

theorem getopt_initial_inv (args : List String) (h : args ≠ []) :
    getopt_inv args getopt_initial := by
  have := List.length_pos.mpr h
  exact ⟨this, fun hx => absurd rfl hx⟩

theorem prozess_commandline_args_eq (posix : Bool) (args : List String) (p : proxy) :
    ∃ ys gfin, getopt_trace posix args (getopt_fuel args) getopt_initial = some (ys, gfin) ∧
      (∀ y ∈ ys, option_value y.1 ∧ (y.1 = 'f' → ∃ a, y.2 = some a)) ∧
      (args ≠ [] → gfin.optind ≤ args.length) ∧
      prozess_commandline_args posix args p =
        some (match loop_on ys p (cmdline_locals.mk false false) with
          | (.throws m, p1, _) => (.throws m, p1)
          | (.returns, p1, l) => after_scan args.length gfin.optind l p1) := by
  obtain ⟨ys, gfin, ht, hys⟩ :=
    getopt_trace_total posix args (getopt_fuel args) getopt_initial (getopt_initial_measure args)
  refine ⟨ys, gfin, ht, hys, ?_, ?_⟩
  · intro hne
    exact (getopt_trace_inv posix args hne _ _ _ _ (getopt_initial_inv args hne) ht).1
  · unfold prozess_commandline_args scan_commandline
    by_cases h1 : args.length = 1
    · have hfuel : getopt_fuel args = (getopt_fuel args - 1) + 1 := by
        rw [getopt_fuel_eq]; omega
      rw [hfuel, getopt_trace, getopt_single posix args h1] at ht
      simp only [Option.some.injEq, Prod.mk.injEq] at ht
      obtain ⟨e1, e2⟩ := ht
      subst e1 e2
      simp [h1, loop_on]
    · obtain ⟨gx, hloop, hgx⟩ := getopt_loop_eq_loop_on posix args (getopt_fuel args)
        getopt_initial ys gfin p (cmdline_locals.mk false false) ht (fun y hy => (hys y hy).2)
      simp only [h1, if_false, hloop]
      cases hl : loop_on ys p (cmdline_locals.mk false false) with
      | mk c rest =>
        obtain ⟨p1, l⟩ := rest
        rw [hl] at hgx
        cases c with
        | throws m => rfl
        | returns =>
          simp only
          rw [hgx rfl]

/-! ## How `prozess_commandline_args` ends -/

theorem select_log_lvl_returns (b : Bool) (p : proxy) (hv : 0 ≤ p.m_verbose_lvl) :
    (select_log_lvl b p).1 = .returns := by
  unfold select_log_lvl
  split_ifs with h1 h2 h3 <;> first | rfl | (exfalso; omega)

theorem after_scan_completion (arg_count optind : Nat) (l : cmdline_locals) (p1 : proxy)
    (hv : 0 ≤ p1.m_verbose_lvl) :
    (after_scan arg_count optind l p1).1 =
      if optind < arg_count then .throws "Unknown option argument"
      else if l.is_check_kernel then .throws "" else .returns := by
  have hsel := select_log_lvl_returns l.is_logging p1 hv
  unfold after_scan
  by_cases h : optind < arg_count
  · simp only [h, if_true]
  · simp only [h, if_false]
    cases hs : select_log_lvl l.is_logging p1 with
    | mk c p2 =>
      rw [hs] at hsel
      simp only at hsel
      subst hsel
      simp only
      split_ifs <;> rfl

theorem first_stop_none (ys : List (Char × Option String)) :
    first_stop ys = none ↔ ∀ y ∈ ys, y.1 ≠ 'h' ∧ y.1 ≠ '?' := by
  unfold first_stop
  rw [List.find?_eq_none]
  constructor
  · intro h y hy
    have := h y.1 (List.mem_map_of_mem _ hy)
    simpa using this
  · intro h c hc
    obtain ⟨y, hy, rfl⟩ := List.mem_map.mp hc
    simpa using h y hy

theorem first_stop_some (ys : List (Char × Option String)) (c : Char)
    (h : first_stop ys = some c) : (c = 'h' ∨ c = '?') ∧ ∃ y ∈ ys, y.1 = c := by
  unfold first_stop at h
  have h1 := List.find?_some h
  have h2 := List.mem_of_find?_eq_some h
  obtain ⟨y, hy, rfl⟩ := List.mem_map.mp h2
  exact ⟨by simpa using h1, y, hy, rfl⟩

/-- C9, amended: `prozess_commandline_args`, entered with a verbose level that is not
negative, always ends. It returns normally if and only if every value `getopt` yields
is one of `r`, `d`, `s`, `v` and `f` (which comes with its argument) and no argument
is left, that is `optind` is not below `arg_count` (and then equals it, `argv` not
being empty). Otherwise it throws, in this order of precedence: at the first `h` or
unknown option that `getopt` yields, the empty message for `h` and the unknown
argument message for the unknown option (or `-f` without argument); when all options
are scanned and an argument is left, the unknown option argument message, also when
`-c` was given; and the empty message when all options are scanned, no argument is
left and `-c` was given. -/
theorem prozess_commandline_args_completion (posix : Bool) (args : List String) (p : proxy)
    (hv : 0 ≤ p.m_verbose_lvl) :
    ∃ ys gfin r,
      getopt_trace posix args (getopt_fuel args) getopt_initial = some (ys, gfin) ∧
      prozess_commandline_args posix args p = some r ∧
      (∀ y ∈ ys, option_value y.1 ∧ (y.1 = 'f' → ∃ a, y.2 = some a)) ∧
      (args ≠ [] → gfin.optind ≤ args.length) ∧
      (r.1 = .returns ↔
        (∀ y ∈ ys, y.1 = 'r' ∨ y.1 = 'd' ∨ y.1 = 's' ∨ y.1 = 'v' ∨ y.1 = 'f') ∧
          ¬ gfin.optind < args.length) ∧
      r.1 =
        (match first_stop ys with
        | some c =>
          if c = 'h' then .throws ""
          else .throws "Unknown argument! See help (-h) for more information."
        | none =>
          if gfin.optind < args.length then .throws "Unknown option argument"
          else if 'c' ∈ ys.map Prod.fst then .throws "" else .returns) := by
  obtain ⟨ys, gfin, ht, hys, hind, hres⟩ := prozess_commandline_args_eq posix args p
  have hcomp := loop_on_completion ys (fun y hy => (hys y hy).1) p (cmdline_locals.mk false false)
  have hck := loop_on_check_kernel ys p (cmdline_locals.mk false false)
  have hverb := loop_on_verbose ys p (cmdline_locals.mk false false)
  refine ⟨ys, gfin, _, ht, hres, hys, hind, ?_⟩
  cases hl : loop_on ys p (cmdline_locals.mk false false) with
  | mk c rest =>
    obtain ⟨p1, l⟩ := rest
    rw [hl] at hcomp hck hverb
    simp only at hcomp hck hverb
    cases hfs : first_stop ys with
    | some c0 =>
      rw [hfs] at hcomp
      simp only at hcomp
      obtain ⟨hc0, y0, hy0, hy0c⟩ := first_stop_some ys c0 hfs
      have hthrows : ∃ m, c = .throws m := by
        split_ifs at hcomp <;> exact ⟨_, hcomp⟩
      obtain ⟨m, hm⟩ := hthrows
      subst hm
      simp only
      refine ⟨?_, hcomp⟩
      constructor
      · intro hx; cases hx
      · intro hx
        have := hx.1 y0 hy0
        rw [hy0c] at this
        rcases hc0 with h | h <;> subst h <;> exact absurd this (by decide)
    | none =>
      rw [hfs] at hcomp
      simp only at hcomp
      subst hcomp
      simp only
      have hasc := after_scan_completion args.length gfin.optind l p1 (le_trans hv hverb)
      have hck2 := hck rfl
      simp only [Bool.false_eq_true, false_or] at hck2
      have hnone := (first_stop_none ys).mp hfs
      have hplain : (∀ y ∈ ys, y.1 = 'r' ∨ y.1 = 'd' ∨ y.1 = 's' ∨ y.1 = 'v' ∨ y.1 = 'f') ↔
          ¬ ('c' ∈ ys.map Prod.fst) := by
        constructor
        · intro hx hc
          obtain ⟨y, hy, hyc⟩ := List.mem_map.mp hc
          have := hx y hy
          rw [hyc] at this
          exact absurd this (by decide)
        · intro hx y hy
          have h1 := (hys y hy).1
          have h2 := hnone y hy
          have h3 : y.1 ≠ 'c' := fun h => hx (h ▸ List.mem_map_of_mem Prod.fst hy)
          unfold option_value at h1
          tauto
      rw [hasc, hplain]
      by_cases hleft : gfin.optind < args.length
      · simp [hleft]
      · by_cases hc : 'c' ∈ ys.map Prod.fst
        · have : l.is_check_kernel = true := hck2.mpr hc
          simp [hleft, hc, this]
        · have : ¬ l.is_check_kernel = true := fun h => hc (hck2.mp h)
          simp [hleft, hc, this]

/-- C9, as claimed, fails, whichever of its clauses is given precedence. For the
arguments `-c x`, in both scanning modes, `getopt` yields `c` and then -1, so `-c` was
given and all options are parsed, but the function throws the unknown option argument
message, not the empty message. For the arguments `-h x` the argument `x` is left
over (`optind` is 2 of 3), but the function throws the empty message, not the unknown
option argument message. -/
theorem check_kernel_with_left_over_argument :
    getopt_trace false ["mcproxy", "-c", "x"] (getopt_fuel ["mcproxy", "-c", "x"])
        getopt_initial = some ([('c', none)], ⟨2, [], 0, none⟩) ∧
      (prozess_commandline_args false ["mcproxy", "-c", "x"]
          (proxy_initial "mcproxy.conf" 0)).map Prod.fst =
        some (.throws "Unknown option argument") ∧
      getopt_trace true ["mcproxy", "-c", "x"] (getopt_fuel ["mcproxy", "-c", "x"])
        getopt_initial = some ([('c', none)], ⟨2, [], 0, none⟩) ∧
      (prozess_commandline_args true ["mcproxy", "-c", "x"]
          (proxy_initial "mcproxy.conf" 0)).map Prod.fst =
        some (.throws "Unknown option argument") ∧
      getopt_trace false ["mcproxy", "-h", "x"] (getopt_fuel ["mcproxy", "-h", "x"])
        getopt_initial = some ([('h', none)], ⟨2, [], 0, none⟩) ∧
      (prozess_commandline_args false ["mcproxy", "-h", "x"]
          (proxy_initial "mcproxy.conf" 0)).map Prod.fst = some (.throws "") ∧
      (prozess_commandline_args true ["mcproxy", "-h", "x"]
          (proxy_initial "mcproxy.conf" 0)).map Prod.fst = some (.throws "") := by
  refine ⟨by decide, by decide, by decide, by decide, by decide, by decide, by decide⟩

/-- C9 amended, for the arguments `-r -c x`. -/
theorem prozess_commandline_args_completion_witness :
    ∃ ys gfin r,
      getopt_trace false ["mcproxy", "-r", "-c", "x"] (getopt_fuel ["mcproxy", "-r", "-c", "x"])
        getopt_initial = some (ys, gfin) ∧
      prozess_commandline_args false ["mcproxy", "-r", "-c", "x"]
        (proxy_initial "mcproxy.conf" 0) = some r ∧
      (∀ y ∈ ys, option_value y.1 ∧ (y.1 = 'f' → ∃ a, y.2 = some a)) ∧
      (["mcproxy", "-r", "-c", "x"] ≠ [] → gfin.optind ≤ ["mcproxy", "-r", "-c", "x"].length) ∧
      (r.1 = .returns ↔
        (∀ y ∈ ys, y.1 = 'r' ∨ y.1 = 'd' ∨ y.1 = 's' ∨ y.1 = 'v' ∨ y.1 = 'f') ∧
          ¬ gfin.optind < ["mcproxy", "-r", "-c", "x"].length) ∧
      r.1 =
        (match first_stop ys with
        | some c =>
          if c = 'h' then .throws ""
          else .throws "Unknown argument! See help (-h) for more information."
        | none =>
          if gfin.optind < ["mcproxy", "-r", "-c", "x"].length then
            .throws "Unknown option argument"
          else if 'c' ∈ ys.map Prod.fst then .throws "" else .returns) :=
  prozess_commandline_args_completion false ["mcproxy", "-r", "-c", "x"]
    (proxy_initial "mcproxy.conf" 0) (by decide)

/-! ## The options of the usage line -/

theorem getopt_next_option (posix : Bool) (pre rest : List String) (a : String) (c : Char)
    (cs : List Char) (oa : Option String) (ha : a.data = '-' :: c :: cs)
    (hdash : a ≠ "--") :
    getopt posix (pre ++ a :: rest) optstring ⟨pre.length, [], 0, oa⟩ =
      getopt_short (pre ++ a :: rest) optstring c cs ⟨pre.length, [], 0, none⟩ := by
  have hlen : ¬ (pre ++ a :: rest).length < 1 := by simp
  have hnon : NONOPTION_P a = false := by simp [NONOPTION_P, ha]
  have hskip : skip_count posix (pre ++ a :: rest) pre.length = 0 := by
    simp [skip_count, skip_nonoptions, hnon]
  have hget : (pre ++ a :: rest)[pre.length]? = some a := by
    rw [List.getElem?_append_right (Nat.le_refl _)]
    simp
  unfold getopt
  rw [if_neg hlen]
  simp only [hskip, Nat.add_zero, hget, if_neg hdash, String.toList, ha]

theorem getopt_flag (posix : Bool) (pre rest : List String) (a : String) (c : Char)
    (oa : Option String) (ha : a.data = ['-', c]) (hdash : a ≠ "--")
    (hlook : optstring_lookup optstring c = some false) (hc : ¬ (c = ':' ∨ c = ';')) :
    getopt posix (pre ++ a :: rest) optstring ⟨pre.length, [], 0, oa⟩ =
      (some c, ⟨pre.length + 1, [], 0, none⟩) := by
  rw [getopt_next_option posix pre rest a c [] oa ha hdash]
  simp [getopt_short, hlook, hc]

theorem getopt_file (posix : Bool) (pre rest : List String) (path : String)
    (oa : Option String) :
    getopt posix (pre ++ "-f" :: path :: rest) optstring ⟨pre.length, [], 0, oa⟩ =
      (some 'f', ⟨pre.length + 2, [], 0, some path⟩) := by
  rw [getopt_next_option posix pre (path :: rest) "-f" 'f' [] oa (by decide) (by decide)]
  have hlook : optstring_lookup optstring 'f' = some true := by decide
  have hget : (pre ++ "-f" :: path :: rest)[pre.length + 1]? = some path := by
    rw [List.getElem?_append_right (by omega)]
    simp
  simp [getopt_short, hlook, hget]

theorem getopt_end (posix : Bool) (pre : List String) (oa : Option String) (hpre : pre ≠ []) :
    getopt posix pre optstring ⟨pre.length, [], 0, oa⟩ = (none, ⟨pre.length, [], 0, none⟩) := by
  have hlen : ¬ pre.length < 1 := by
    have := List.length_pos.mpr hpre
    omega
  simp [getopt, hlen, skip_count, skip_nonoptions]

theorem getopt_trace_render (posix : Bool) (opts : List cli_option) :
    ∀ (pre : List String) (oa : Option String) (fuel : Nat), pre ≠ [] → opts.length < fuel →
      getopt_trace posix (pre ++ render_options opts) fuel ⟨pre.length, [], 0, oa⟩ =
        some (opts.map cli_option.yield,
          ⟨(pre ++ render_options opts).length, [], 0, none⟩) := by
  induction opts with
  | nil =>
    intro pre oa fuel hpre hfuel
    obtain ⟨n, rfl⟩ : ∃ n, fuel = n + 1 := ⟨fuel - 1, by simp at hfuel; omega⟩
    simp only [render_options, List.append_nil, getopt_trace, getopt_end posix pre oa hpre,
      List.map_nil]
  | cons o rest ih =>
    intro pre oa fuel hpre hfuel
    obtain ⟨n, rfl⟩ : ∃ n, fuel = n + 1 := ⟨fuel - 1, by simp at hfuel; omega⟩
    have hn : rest.length < n := by simp at hfuel; omega
    have step : ∀ (a : String) (c : Char), a.data = ['-', c] → a ≠ "--" →
        optstring_lookup optstring c = some false → ¬ (c = ':' ∨ c = ';') →
        getopt_trace posix (pre ++ a :: render_options rest) (n + 1) ⟨pre.length, [], 0, oa⟩ =
          some ((c, none) :: rest.map cli_option.yield,
            ⟨(pre ++ a :: render_options rest).length, [], 0, none⟩) := by
      intro a c ha hdash hlook hc
      have h1 := ih (pre ++ [a]) none n (by simp) hn
      rw [show (pre ++ [a]) ++ render_options rest = pre ++ a :: render_options rest by simp,
        show (pre ++ [a]).length = pre.length + 1 by simp] at h1
      rw [getopt_trace, getopt_flag posix pre _ a c oa ha hdash hlook hc]
      simp only [h1]
    cases o with
    | r => exact step "-r" 'r' (by decide) (by decide) (by decide) (by decide)
    | d => exact step "-d" 'd' (by decide) (by decide) (by decide) (by decide)
    | s => exact step "-s" 's' (by decide) (by decide) (by decide) (by decide)
    | v => exact step "-v" 'v' (by decide) (by decide) (by decide) (by decide)
    | f path =>
      have h1 := ih (pre ++ ["-f", path]) (some path) n (by simp) hn
      rw [show (pre ++ ["-f", path]) ++ render_options rest =
          pre ++ "-f" :: path :: render_options rest by simp,
        show (pre ++ ["-f", path]).length = pre.length + 2 by simp] at h1
      simp only [render_options, cli_option.render, List.cons_append, List.nil_append,
        List.map_cons, cli_option.yield]
      rw [getopt_trace, getopt_file posix pre _ path oa]
      simp only [h1]

theorem loop_on_render (opts : List cli_option) :
    ∀ (p : proxy) (l : cmdline_locals),
      loop_on (opts.map cli_option.yield) p l =
        (.returns,
          { p with
            m_reset_rp_filter := p.m_reset_rp_filter || decide (cli_option.r ∈ opts)
            m_print_proxy_status := p.m_print_proxy_status || decide (cli_option.s ∈ opts)
            m_verbose_lvl := p.m_verbose_lvl + (opts.count cli_option.v : Nat)
            m_config_path := last_config_path p.m_config_path opts },
          { l with is_logging := l.is_logging || decide (cli_option.d ∈ opts) }) := by
  induction opts with
  | nil =>
    intro p l
    simp [loop_on, last_config_path]
  | cons o rest ih =>
    intro p l
    cases o with
    | r =>
      simp only [List.map_cons, cli_option.yield, loop_on, ih]
      simp [last_config_path]
    | d =>
      simp only [List.map_cons, cli_option.yield, loop_on, ih]
      simp [last_config_path]
    | s =>
      simp only [List.map_cons, cli_option.yield, loop_on, ih]
      simp [last_config_path]
    | v =>
      simp only [List.map_cons, cli_option.yield, loop_on, ih]
      simp [last_config_path, List.count_cons]
      omega
    | f path =>
      simp only [List.map_cons, cli_option.yield, loop_on, ih]
      simp [last_config_path]

theorem render_options_length (opts : List cli_option) :
    opts.length ≤ (render_options opts).length := by
  induction opts with
  | nil => simp [render_options]
  | cons o rest ih =>
    cases o <;> simp [render_options, cli_option.render] <;> omega

theorem getopt_fuel_ge (args : List String) : args.length < getopt_fuel args := by
  unfold getopt_fuel
  induction args with
  | nil => simp
  | cons a rest ih => simp at ih ⊢; omega

theorem prozess_commandline_args_render (posix : Bool) (argv0 : String)
    (opts : List cli_option) (p : proxy) (hv : 0 ≤ p.m_verbose_lvl) :
    prozess_commandline_args posix (argv0 :: render_options opts) p =
      some (.returns,
        (select_log_lvl (decide (cli_option.d ∈ opts))
          { p with
            m_reset_rp_filter := p.m_reset_rp_filter || decide (cli_option.r ∈ opts)
            m_print_proxy_status := p.m_print_proxy_status || decide (cli_option.s ∈ opts)
            m_verbose_lvl := p.m_verbose_lvl + (opts.count cli_option.v : Nat)
            m_config_path := last_config_path p.m_config_path opts }).2) := by
  obtain ⟨ys, gfin, ht, _, _, hres⟩ :=
    prozess_commandline_args_eq posix (argv0 :: render_options opts) p
  have hfuel : opts.length < getopt_fuel (argv0 :: render_options opts) := by
    have h1 := getopt_fuel_ge (argv0 :: render_options opts)
    have h2 := render_options_length opts
    simp only [List.length_cons] at h1
    omega
  have htr := getopt_trace_render posix opts [argv0] none _ (by simp) hfuel
  simp only [List.singleton_append, List.length_singleton] at htr
  have hinit : getopt_initial = ⟨1, [], 0, none⟩ := rfl
  rw [hinit, htr] at ht
  simp only [Option.some.injEq, Prod.mk.injEq] at ht
  obtain ⟨e1, e2⟩ := ht
  subst e1 e2
  rw [hres, loop_on_render]
  simp only [Bool.false_or]
  have hsel := select_log_lvl_returns (decide (cli_option.d ∈ opts))
    { p with
      m_reset_rp_filter := p.m_reset_rp_filter || decide (cli_option.r ∈ opts)
      m_print_proxy_status := p.m_print_proxy_status || decide (cli_option.s ∈ opts)
      m_verbose_lvl := p.m_verbose_lvl + (opts.count cli_option.v : Nat)
      m_config_path := last_config_path p.m_config_path opts }
    (by simp only; omega)
  unfold after_scan
  simp only [lt_self_iff_false, if_false]
  generalize select_log_lvl _ _ = sel at hsel ⊢
  obtain ⟨c, p2⟩ := sel
  simp only at hsel
  subst hsel
  rfl

theorem loop_on_plain (ys : List (Char × Option String))
    (h : ∀ y ∈ ys, y.1 = 'r' ∨ y.1 = 'd' ∨ y.1 = 's' ∨ y.1 = 'v' ∨ y.1 = 'f') :
    ∀ (p : proxy) (l : cmdline_locals),
      loop_on ys p l =
        (.returns,
          { p with
            m_reset_rp_filter := p.m_reset_rp_filter || decide ('r' ∈ ys.map Prod.fst)
            m_print_proxy_status := p.m_print_proxy_status || decide ('s' ∈ ys.map Prod.fst)
            m_verbose_lvl := p.m_verbose_lvl + ((ys.map Prod.fst).count 'v' : Nat)
            m_config_path := last_optarg p.m_config_path ys },
          { l with is_logging := l.is_logging || decide ('d' ∈ ys.map Prod.fst) }) := by
  induction ys with
  | nil =>
    intro p l
    simp [loop_on, last_optarg]
  | cons y rest ih =>
    intro p l
    obtain ⟨c, oa⟩ := y
    have hc := h (c, oa) (List.mem_cons_self _ _)
    have ih2 := ih (fun y hy => h y (List.mem_cons_of_mem _ hy))
    simp only at hc
    rcases hc with hc | hc | hc | hc | hc <;> subst hc
    · simp only [loop_on, ih2]
      simp [last_optarg]
    · simp only [loop_on, ih2]
      simp [last_optarg]
    · simp only [loop_on, ih2]
      simp [last_optarg]
    · simp only [loop_on, ih2]
      simp [last_optarg, List.count_cons]
      omega
    · simp only [loop_on, ih2]
      simp [last_optarg]

theorem prozess_commandline_args_plain (posix : Bool) (args : List String) (p : proxy)
    (hv : 0 ≤ p.m_verbose_lvl) (ys : List (Char × Option String)) (gfin : getopt_state)
    (ht : getopt_trace posix args (getopt_fuel args) getopt_initial = some (ys, gfin))
    (hopts : ∀ y ∈ ys, y.1 = 'r' ∨ y.1 = 'd' ∨ y.1 = 's' ∨ y.1 = 'v' ∨ y.1 = 'f')
    (hleft : ¬ gfin.optind < args.length) :
    prozess_commandline_args posix args p =
      some (.returns,
        (select_log_lvl (decide ('d' ∈ ys.map Prod.fst))
          { p with
            m_reset_rp_filter := p.m_reset_rp_filter || decide ('r' ∈ ys.map Prod.fst)
            m_print_proxy_status := p.m_print_proxy_status || decide ('s' ∈ ys.map Prod.fst)
            m_verbose_lvl := p.m_verbose_lvl + ((ys.map Prod.fst).count 'v' : Nat)
            m_config_path := last_optarg p.m_config_path ys }).2) := by
  obtain ⟨ys1, gfin1, ht1, _, _, hres⟩ := prozess_commandline_args_eq posix args p
  rw [ht] at ht1
  simp only [Option.some.injEq, Prod.mk.injEq] at ht1
  obtain ⟨e1, e2⟩ := ht1
  subst e1 e2
  rw [hres, loop_on_plain ys hopts]
  simp only [Bool.false_or]
  have hsel := select_log_lvl_returns (decide ('d' ∈ ys.map Prod.fst))
    { p with
      m_reset_rp_filter := p.m_reset_rp_filter || decide ('r' ∈ ys.map Prod.fst)
      m_print_proxy_status := p.m_print_proxy_status || decide ('s' ∈ ys.map Prod.fst)
      m_verbose_lvl := p.m_verbose_lvl + ((ys.map Prod.fst).count 'v' : Nat)
      m_config_path := last_optarg p.m_config_path ys }
    (by simp only; omega)
  unfold after_scan
  simp only [hleft, if_false]
  generalize select_log_lvl _ _ = sel at hsel ⊢
  obtain ⟨c, p2⟩ := sel
  simp only at hsel
  subst hsel
  rfl

/-- C7: `prozess_commandline_args`, run on the members as the constructor initialises
them, in both scanning modes of `getopt`. First, for every argument vector made of a
program name and the options `-r`, `-d`, `-s`, `-v` and `-f <path>` given one by one, in
any number and order (none at all included), it returns normally with
`m_reset_rp_filter` true iff `-r` occurs, `m_print_proxy_status` true iff `-s` occurs,
`m_verbose_lvl` the number of `-v`, and `m_config_path` the argument of the last `-f`, or
the default path when there is no `-f`. Second, the same holds however the options are
written (clustered, or with the path attached to `-f`): for every argument vector for
which `getopt` yields only `r`, `d`, `s`, `v` and `f` and leaves no argument. -/
theorem prozess_commandline_args_options (posix : Bool) (default_config_path : String)
    (timing : Nat) :
    (∀ (argv0 : String) (opts : List cli_option),
      ∃ p1, prozess_commandline_args posix (argv0 :: render_options opts)
            (proxy_initial default_config_path timing) = some (.returns, p1) ∧
        (p1.m_reset_rp_filter = true ↔ cli_option.r ∈ opts) ∧
        (p1.m_print_proxy_status = true ↔ cli_option.s ∈ opts) ∧
        p1.m_verbose_lvl = (opts.count cli_option.v : Nat) ∧
        p1.m_config_path = last_config_path default_config_path opts) ∧
    (∀ (args : List String) (ys : List (Char × Option String)) (gfin : getopt_state),
      getopt_trace posix args (getopt_fuel args) getopt_initial = some (ys, gfin) →
      (∀ y ∈ ys, y.1 = 'r' ∨ y.1 = 'd' ∨ y.1 = 's' ∨ y.1 = 'v' ∨ y.1 = 'f') →
      ¬ gfin.optind < args.length →
      ∃ p1, prozess_commandline_args posix args
            (proxy_initial default_config_path timing) = some (.returns, p1) ∧
        (p1.m_reset_rp_filter = true ↔ 'r' ∈ ys.map Prod.fst) ∧
        (p1.m_print_proxy_status = true ↔ 's' ∈ ys.map Prod.fst) ∧
        p1.m_verbose_lvl = ((ys.map Prod.fst).count 'v' : Nat) ∧
        p1.m_config_path = last_optarg default_config_path ys) := by
  constructor
  · intro argv0 opts
    refine ⟨_, prozess_commandline_args_render posix argv0 opts
      (proxy_initial default_config_path timing) (le_refl _), ?_⟩
    unfold select_log_lvl
    split_ifs <;> simp [proxy_initial]
  · intro args ys gfin ht hopts hleft
    refine ⟨_, prozess_commandline_args_plain posix args
      (proxy_initial default_config_path timing) (le_refl _) ys gfin ht hopts hleft, ?_⟩
    unfold select_log_lvl
    split_ifs <;> simp [proxy_initial]

/-- C7, for options written in clusters and with the path attached. -/
theorem prozess_commandline_args_options_witness :
    ∃ p1, prozess_commandline_args false ["mcproxy", "-rvv", "-fx.conf", "-s", "-f", "y.conf"]
          (proxy_initial "mcproxy.conf" 0) = some (.returns, p1) ∧
      (p1.m_reset_rp_filter = true ↔
        'r' ∈ [('r', none), ('v', none), ('v', none), ('f', some "x.conf"), ('s', none),
          ('f', some "y.conf")].map Prod.fst) ∧
      (p1.m_print_proxy_status = true ↔
        's' ∈ [('r', none), ('v', none), ('v', none), ('f', some "x.conf"), ('s', none),
          ('f', some "y.conf")].map Prod.fst) ∧
      p1.m_verbose_lvl =
        (([('r', none), ('v', none), ('v', none), ('f', some "x.conf"), ('s', none),
          ('f', some "y.conf")].map Prod.fst).count 'v' : Nat) ∧
      p1.m_config_path =
        last_optarg "mcproxy.conf"
          [('r', none), ('v', none), ('v', none), ('f', some "x.conf"), ('s', none),
            ('f', some "y.conf")] :=
  (prozess_commandline_args_options false "mcproxy.conf" 0).2
    ["mcproxy", "-rvv", "-fx.conf", "-s", "-f", "y.conf"]
    [('r', none), ('v', none), ('v', none), ('f', some "x.conf"), ('s', none),
      ('f', some "y.conf")]
    ⟨6, [], 0, none⟩ (by decide) (by decide) (by decide)

/-! ## The verbose level and the log level -/

/-- C8 fails on the code: in debug mode (`-d`) no `-v` selects the debug level and one
`-v` the trace level, but `-v` given twice selects the trace level again, not a more
verbose one, although the help text says to give `-v` twice to see even more
messages. The same holds with any further options behind: one `-v` and two `-v`
select the same level. -/
theorem verbose_twice_selects_same_log_level :
    (prozess_commandline_args false ["mcproxy", "-d"] (proxy_initial "mcproxy.conf" 0)).map
        (fun r => (r.1, r.2.m_verbose_lvl, r.2.default_log_lvl)) =
        some (.returns, 0, some .HC_LOG_DEBUG_LVL) ∧
      (prozess_commandline_args false ["mcproxy", "-d", "-v"]
          (proxy_initial "mcproxy.conf" 0)).map
        (fun r => (r.1, r.2.m_verbose_lvl, r.2.default_log_lvl)) =
        some (.returns, 1, some .HC_LOG_TRACE_LVL) ∧
      (prozess_commandline_args false ["mcproxy", "-d", "-v", "-v"]
          (proxy_initial "mcproxy.conf" 0)).map
        (fun r => (r.1, r.2.m_verbose_lvl, r.2.default_log_lvl)) =
        some (.returns, 2, some .HC_LOG_TRACE_LVL) ∧
      "\t\tBe verbose. Give twice to see even more messages" ∈ help_output ∧
      (∀ (posix : Bool) (argv0 : String) (opts : List cli_option),
        (prozess_commandline_args posix (argv0 :: render_options (.d :: .v :: opts))
            (proxy_initial "mcproxy.conf" 0)).map (fun r => (r.1, r.2.default_log_lvl)) =
          some (.returns, some .HC_LOG_TRACE_LVL) ∧
        (prozess_commandline_args posix (argv0 :: render_options (.d :: .v :: .v :: opts))
            (proxy_initial "mcproxy.conf" 0)).map (fun r => (r.1, r.2.default_log_lvl)) =
          some (.returns, some .HC_LOG_TRACE_LVL)) := by
  refine ⟨by decide, by decide, by decide, by decide, ?_⟩
  intro posix argv0 opts
  have h1 := prozess_commandline_args_render posix argv0 (.d :: .v :: opts)
    (proxy_initial "mcproxy.conf" 0) (le_refl _)
  have h2 := prozess_commandline_args_render posix argv0 (.d :: .v :: .v :: opts)
    (proxy_initial "mcproxy.conf" 0) (le_refl _)
  rw [h1, h2]
  have hc1 : 0 < List.count cli_option.v (.d :: .v :: opts) :=
    List.count_pos_iff.mpr (by simp)
  have hc2 : 0 < List.count cli_option.v (.d :: .v :: .v :: opts) :=
    List.count_pos_iff.mpr (by simp)
  have hpos1 : ¬ ((0 : Int) + ((List.count cli_option.v (.d :: .v :: opts) : Nat) : Int) = 0) := by
    omega
  have hpos2 : ¬ ((0 : Int) + ((List.count cli_option.v (.d :: .v :: .v :: opts) : Nat) : Int)
      = 0) := by
    omega
  have hge1 : (0 : Int) + ((List.count cli_option.v (.d :: .v :: opts) : Nat) : Int) ≥ 1 := by
    omega
  have hge2 : (0 : Int) + ((List.count cli_option.v (.d :: .v :: .v :: opts) : Nat) : Int)
      ≥ 1 := by
    omega
  constructor
  · simp only [select_log_lvl, proxy_initial, List.mem_cons, true_or, decide_True,
      Bool.not_eq_true, Bool.true_eq_false, not_false_eq_true, not_true_eq_false, if_false,
      hpos1, hge1, if_true, Option.map_some']
  · simp only [select_log_lvl, proxy_initial, List.mem_cons, true_or, decide_True,
      Bool.not_eq_true, Bool.true_eq_false, not_false_eq_true, not_true_eq_false, if_false,
      hpos2, hge2, if_true, Option.map_some']

end mcproxy
